import Mathlib

/-!
Verification development for the cosmetic-filtering subsystem of
uBlock-for-firefox-legacy: shallow embeddings of the procedural-selector
compiler (`static-ext-filtering`), the procedural DOM filterer, the DOM
surveyor's chunk queues, and the DOM collapser, together with theorems
about the properties stated in the design document.

Conventions used throughout:
* JS strings are modelled as `List Char` (`Str`).
* JS numbers are modelled as `Int` (timestamps, budgets) or `Nat`
  (indices, lengths); `Math.floor` division is `Int.fdiv`.
* DOM interaction (querySelectorAll, computed style, xpath evaluation,
  CSS selectable probes) is modelled by explicit oracle functions, since
  those live outside the program text.
* Fallible operations return `Option`; a JS `throw` crossing a function
  boundary is an `Except`/flag made explicit in the result type.
-/

/-- JS strings, modelled as their sequence of characters. -/
abbrev Str : Type := List Char

/-- Literal helper turning a Lean string literal into a `Str`. -/
def strLit (s : String) : Str := s.data

/-- JS number-to-string coercion for a natural number. -/
def natToStr (n : Nat) : Str := (Nat.repr n).data

/-- Whitespace test standing in for the JS `\s` character class and the
characters removed by `String.prototype.trim`. -/
def isWS (c : Char) : Bool := c.isWhitespace

/-- JS `String.prototype.trim`. -/
def trimStr (s : Str) : Str :=
  ((s.dropWhile isWS).reverse.dropWhile isWS).reverse

namespace Surveyor

/-! Model of the DOM surveyor's pending-chunk queues
(`src/src/js/contentscript.js`, `addChunk` lines 1174-1186 and
`nextChunk` lines 1188-1210).

`pending` is `{ nodes: [], added: [] }`.  Elements of `pending.added`
are normally chunks, i.e. JS Arrays or NodeLists of nodes, but the
`pending.added.concat(added)` branch of `addChunk` appends the *nodes*
of `added` one by one (JS `concat` flattens its array argument one
level), so the queue can also hold bare nodes.  `Entry` captures the
three shapes; a node is a `Nat`. -/
inductive Entry where
  | chunk (isArray : Bool) (ns : List Nat)
  | single (n : Nat)
deriving DecidableEq, Repr

/-- Array.isArray: a JS Array chunk answers true, a NodeList chunk and a
bare DOM node answer false. -/
def Entry.isArr : Entry → Bool
  | .chunk b _ => b
  | .single _ => false

/-- The `.length` property of a queue entry.  A bare DOM node has no
`length` (JS `undefined`); this accessor is only consulted by `addChunk`
after `isArr` answered true, so the `single` value is irrelevant there.  -/
def Entry.len : Entry → Nat
  | .chunk _ ns => ns.length
  | .single _ => 0

/-- State of one pending queue: `nodes` is the overflow buffer of bare
nodes, `added` is the queue of not-yet-drained entries. -/
structure Pending where
  nodes : List Nat
  added : List Entry
deriving DecidableEq, Repr

/-- Model of `addChunk(pending, added)`.  `isArray` tells whether the
incoming collection is a JS Array (true) or a NodeList (false); `ns` are
its nodes.  Mirrors the source: empty input is dropped; the chunk is
pushed whole unless it is an Array arriving while the head of the queue
is an Array chunk shorter than 1000, in which case
`pending.added.concat(added)` appends the incoming *nodes* individually
(one-level flattening of JS `concat`). -/
def addChunk (p : Pending) (isArray : Bool) (ns : List Nat) : Pending :=
  if ns.length = 0 then p
  else
    let headOk : Bool :=
      match p.added with
      | [] => false
      | e :: _ => e.isArr && decide (e.len < 1000)
    if isArray = false || headOk = false then
      { p with added := p.added ++ [Entry.chunk isArray ns] }
    else
      { p with added := p.added ++ ns.map Entry.single }

/-- Model of `nextChunk(pending)`: returns the drained node list and the
new queue state.  Branches follow the source line by line:
* queue empty: `added = []`;
* `pending.nodes` empty: return the shifted entry if it holds at most
  1000 nodes, else keep the tail in `pending.nodes`; a bare node entry
  has `length === undefined`, `undefined <= 1000` is false, and
  `Array.prototype.slice.call(node)` yields `[]`;
* otherwise merge `pending.nodes` with the shifted entry, draining at
  most 1000 nodes. -/
def nextChunk (p : Pending) : List Nat × Pending :=
  match p.added with
  | [] =>
    if p.nodes.length = 0 then ([], p)
    else if p.nodes.length < 1000 then (p.nodes, { nodes := [], added := [] })
    else (p.nodes.take 1000, { nodes := p.nodes.drop 1000, added := [] })
  | e :: rest =>
    if p.nodes.length = 0 then
      match e with
      | .chunk _ ns =>
        if ns.length ≤ 1000 then (ns, { nodes := p.nodes, added := rest })
        else (ns.take 1000, { nodes := ns.drop 1000, added := rest })
      | .single _ => ([], { nodes := [], added := rest })
    else
      let ans : List Nat :=
        match e with
        | .chunk _ ns => ns
        | .single _ => []
      if p.nodes.length < 1000 then
        (p.nodes ++ ans.take (1000 - p.nodes.length),
         { nodes := ans.drop (1000 - p.nodes.length), added := rest })
      else
        (p.nodes.take 1000, { nodes := p.nodes.drop 1000 ++ ans, added := rest })

end Surveyor

namespace Collapser

/-! Model of the DOM collapser's response handler
(`src/src/js/contentscript.js`, `onProcessed` lines 866-933).  The
response bookkeeping (request id lookup in `toCollapse`, refresh of the
cached blocked set and its expiry timer) does not touch any element and
is elided; the model starts at the per-target loop, with the cached
blocked set passed in as a list of `"type url"` strings. -/

/-- An element observed by the collapser: its tag name, its resource
properties (`target[prop]`; absent or non-string properties are `none`)
and its attributes (`target.getAttribute(prop)`; `null` is `none`). -/
structure Elem where
  localName : String
  props : List (String × String)
  attrs : List (String × String)
deriving DecidableEq, Repr

/-- Property read `target[prop]`. -/
def getProp (e : Elem) (p : String) : Option String :=
  (e.props.find? (fun q => q.1 = p)).map (fun q => q.2)

/-- Attribute read `target.getAttribute(prop)`. -/
def getAttr (e : Elem) (p : String) : Option String :=
  (e.attrs.find? (fun q => q.1 = p)).map (fun q => q.2)

/-- The `src1stProps` table. -/
def src1stProp (tag : String) : Option String :=
  if tag = "embed" then some "src"
  else if tag = "iframe" then some "src"
  else if tag = "img" then some "src"
  else if tag = "object" then some "data"
  else none

/-- The `src2ndProps` table. -/
def src2ndProp (tag : String) : Option String :=
  if tag = "img" then some "srcset" else none

/-- The `tagToTypeMap` table; an unmapped tag yields the JS string
coercion of `undefined` (never reached for tags that pass
`src1stProps`). -/
def tagToType (tag : String) : String :=
  if tag = "embed" then "object"
  else if tag = "iframe" then "sub_frame"
  else if tag = "img" then "image"
  else if tag = "object" then "object"
  else "undefined"

/-- The source-URL selection at the top of the per-target loop: try
`src1stProps[tag]`, fall back to `src2ndProps[tag]`, requiring a
non-empty string value; returns the property used and its value. -/
def pickSrc (e : Elem) : Option (String × String) :=
  match src1stProp e.localName with
  | none => none
  | some p1 =>
    let second : Option (String × String) :=
      match src2ndProp e.localName with
      | none => none
      | some p2 =>
        match getProp e p2 with
        | some s => if s = "" then none else some (p2, s)
        | none => none
    match getProp e p1 with
    | some s => if s = "" then second else some (p1, s)
    | none => second

/-- Whether the collapser confirms `e` as blocked: its chosen resource
URL, prefixed with the request type, is in the cached blocked set. -/
def confirmedBlocked (blocked : List String) (e : Elem) : Bool :=
  match pickSrc e with
  | none => false
  | some (_, src) => blocked.contains (tagToType e.localName ++ " " ++ src)

/-- Host-visible operations the collapser can perform on an element.
`removeElement` (detaching the node) is part of the vocabulary so that
"never detaches" is expressible; the theorems show it is never
emitted. -/
inductive Effect where
  | setStyleDisplayNoneImportant (e : Elem)
  | setHiddenTrue (e : Elem)
  | iframeLoadEventPatch (e : Elem)
  | removeElement (e : Elem)
deriving DecidableEq, Repr

/-- The element an effect acts on. -/
def Effect.target : Effect → Elem
  | .setStyleDisplayNoneImportant e => e
  | .setHiddenTrue e => e
  | .iframeLoadEventPatch e => e
  | .removeElement e => e

/-- An effect that only sets hiding state (or fires the platform iframe
load-event patch, which mutates no element field); `removeElement` is
the lone non-hiding effect. -/
def Effect.isHiding : Effect → Bool
  | .removeElement _ => false
  | _ => true

/-- One iteration of the `for ( let target of targets )` loop of
`onProcessed`: threading `(netSelectorCacheCount, effects, selectors)`.
A confirmed-blocked element gets `style.setProperty('display', 'none',
'important')` and `hidden = true`; under the cache cap a derived
attribute selector is recorded; if the platform defines
`iframeLoadEventPatch` it is invoked on the element. -/
def processTarget (blocked : List String) (patchDefined : Bool) (maxCnt : Int)
    (st : Int × List Effect × List String) (e : Elem) :
    Int × List Effect × List String :=
  let cnt := st.1
  let effs := st.2.1
  let sels := st.2.2
  match pickSrc e with
  | none => st
  | some (prop, src) =>
    if blocked.contains (tagToType e.localName ++ " " ++ src) = false then st
    else
      let effs := effs ++ [Effect.setStyleDisplayNoneImportant e, Effect.setHiddenTrue e]
      let next : Int × List String :=
        if cnt ≤ maxCnt then
          match getAttr e prop with
          | some v =>
            if v = "" then (cnt, sels)
            else (cnt + 1, sels ++ [e.localName ++ "[" ++ prop ++ "=\"" ++ v ++ "\"]"])
          | none => (cnt, sels)
        else (cnt, sels)
      let effs := if patchDefined then effs ++ [Effect.iframeLoadEventPatch e] else effs
      (next.1, effs, next.2)

/-- The target-processing phase of `onProcessed`: nothing happens when
the cached blocked set is empty (the early `return`); otherwise every
target runs through `processTarget`. -/
def onProcessed (blocked : List String) (patchDefined : Bool) (maxCnt : Int)
    (cnt0 : Int) (targets : List Elem) : Int × List Effect × List String :=
  if blocked.length = 0 then (cnt0, [], [])
  else targets.foldl (processTarget blocked patchDefined maxCnt) (cnt0, [], [])

end Collapser

namespace Procedural

/-! Model of `DOMProceduralFilterer.commitNow`
(`src/src/js/contentscript.js`, lines 679-741) together with the
per-selector budget bookkeeping it performs.  DOM nodes are `Nat`; the
DOM interaction of `pselector.exec()` is supplied per pass as an input:
either `.ok nodes` (the matched nodes, in order) or `.error ()` (the
pipeline threw — neither `PSelector.exec` nor `commitNow` contains a
`try`/`catch`, so a throw leaves `commitNow` immediately).  The wall
clock is explicit: each executed selector's `Date.now()` cost is the
second component of its input. -/

/-- Mutable per-selector state tracked by the runtime: `budget`,
`lastAllowanceTime`, the optional `action` string and the `hit` flag
(`PSelector` fields, lines 573-576, 587-589, 625-626). -/
structure PSel where
  budget : Int
  lastAllowanceTime : Int
  action : Option String
  hit : Bool
deriving DecidableEq, Repr

/-- Per-pass input for one selector: the outcome of `pselector.exec()`
and its wall-clock cost `t1 - t0` (ignored when the selector is skipped
or throws before `Date.now()` is read again). -/
abbrev ExecInput : Type := Except Unit (List Nat) × Int

/-- The `Set`-like insertion of `this.hiddenNodes.add(node)`. -/
def addHidden (h : List Nat) (n : Nat) : List Nat :=
  if h.contains n then h else h ++ [n]

/-- `hideNodes(nodes)` (lines 728-734): nodes with no parent element are
skipped; the rest are hidden (`domFilterer.hideNode`) and recorded in
the hidden-node set.  `parent n` tells whether node `n` has a non-null
`parentElement`. -/
def hideNodes (parent : Nat → Bool) (h : List Nat) (ns : List Nat) : List Nat :=
  ns.foldl (fun h n => if parent n then addHidden h n else h) h

/-- The allowance replenishment at the top of the per-selector loop
(lines 697-702): `allowance = Math.floor((t0 - lastAllowanceTime)/2000)`;
if at least 1, add `allowance * 50` to the budget, cap at 200, and stamp
`lastAllowanceTime = t0`. -/
def replenish (t0 : Int) (p : PSel) : PSel :=
  let allowance := (t0 - p.lastAllowanceTime).fdiv 2000
  if 1 ≤ allowance then
    let b := p.budget + allowance * 50
    { p with budget := if 200 < b then 200 else b, lastAllowanceTime := t0 }
  else p

/-- Result of processing one selector inside the loop: the clock after
the selector, the updated hidden-node set, the updated selector state,
whether `exec` was invoked, and whether it threw. -/
structure StepOut where
  t0 : Int
  hidden : List Nat
  p : PSel
  executed : Bool
  threw : Bool
deriving DecidableEq, Repr

/-- One iteration of `for (let pselector of this.selectors.values())`
(lines 696-719): replenish; skip when the budget is not positive;
otherwise run `exec` — a throw escapes with every mutation made so far
kept — deduct the elapsed time, clamp a budget below -500 to
-0x7FFFFFFF, and hide (or, for a `remove` selector, detach) the matched
nodes. -/
def selStep (parent : Nat → Bool) (t0 : Int) (hidden : List Nat) (p : PSel)
    (inp : Except Unit (List Nat)) (cost : Int) : StepOut :=
  let p := replenish t0 p
  if p.budget ≤ 0 then ⟨t0, hidden, p, false, false⟩
  else
    match inp with
    | .error _ => ⟨t0, hidden, p, true, true⟩
    | .ok nodes =>
      let t1 := t0 + cost
      let b := p.budget + (t0 - t1)
      let p := { p with budget := if b < -500 then -2147483647 else b }
      if nodes.length = 0 then ⟨t1, hidden, p, true, false⟩
      else
        let p := { p with hit := true }
        if p.action = some "remove" then ⟨t1, hidden, p, true, false⟩
        else ⟨t1, hideNodes parent hidden nodes, p, true, false⟩

/-- Result of the selector loop: final clock, the new hidden-node set as
built so far, the selector states, and whether some selector threw. -/
structure LoopOut where
  t0 : Int
  hidden : List Nat
  sels : List PSel
  threw : Bool
deriving DecidableEq, Repr

/-- The selector loop of `commitNow`.  Inputs are consumed pairwise with
the selectors (callers supply one input per selector; a missing input
defaults to a cost-free empty result).  A throw stops the loop at once:
selectors after the throwing one keep their previous state. -/
def commitLoop (parent : Nat → Bool) (t0 : Int) (hidden : List Nat) :
    List PSel → List ExecInput → LoopOut
  | [], _ => ⟨t0, hidden, [], false⟩
  | p :: ps, inps =>
    let hd : ExecInput := match inps with
      | [] => (Except.ok [], 0)
      | i :: _ => i
    let tl : List ExecInput := match inps with
      | [] => []
      | _ :: r => r
    let s := selStep parent t0 hidden p hd.1 hd.2
    if s.threw then ⟨s.t0, s.hidden, s.p :: ps, true⟩
    else
      let r := commitLoop parent s.t0 s.hidden ps tl
      ⟨r.t0, r.hidden, s.p :: r.sels, r.threw⟩

/-- Result of a full `commitNow` pass. -/
structure CommitOut where
  sels : List PSel
  hiddenNodes : List Nat
  unhideCalls : List Nat
  threw : Bool
deriving DecidableEq, Repr

/-- Model of `commitNow` (lines 679-726): bail out when there are no
selectors or the DOM is not ready; otherwise stash the previous
hidden-node set in `toRemove`, rebuild `this.hiddenNodes` from scratch
through the selector loop, and finally call `unhideNode` on every node
of `toRemove` not in the rebuilt set.  A throw escapes before the unhide
loop runs, so no node is unhidden in that pass. -/
def commitNow (parent : Nat → Bool) (domIsReady : Bool) (t0 : Int)
    (sels : List PSel) (inps : List ExecInput) (hidden : List Nat) : CommitOut :=
  if sels.length = 0 ∨ domIsReady = false then ⟨sels, hidden, [], false⟩
  else
    let toRemove := hidden
    let r := commitLoop parent t0 [] sels inps
    if r.threw then ⟨r.sels, r.hidden, [], true⟩
    else ⟨r.sels, r.hidden, toRemove.filter (fun n => !r.hidden.contains n), false⟩

/-- Repeated re-evaluation passes as seen by one selector: each entry is
the `Date.now()` value when the loop reaches the selector, its exec
outcome and its cost.  Returns the final selector state and whether the
selector was executed in any of the passes. -/
def runPasses (parent : Nat → Bool) (p : PSel) :
    List (Int × Except Unit (List Nat) × Int) → PSel × Bool
  | [] => (p, false)
  | (t0, inp, cost) :: rest =>
    let s := selStep parent t0 [] p inp cost
    let r := runPasses parent s.p rest
    (r.1, s.executed || r.2)

/-- Parent oracle used in concrete scenarios: every node has a parent
element. -/
def parentT : Nat → Bool := fun _ => true

end Procedural

namespace Pipeline

/-! Model of the executable procedural selector
(`src/src/js/contentscript.js`, the `PSelector` class and its task
classes, lines 359-627).  DOM nodes are `Nat`; the document object,
which `prime` can also return, is the pseudo-node `Dom.doc`.  All DOM
reads (querySelectorAll, textContent, parentElement, closest, computed
style, previous-sibling count, nodeType, XPath snapshot evaluation) and
`RegExp.test` are oracle functions collected in `Dom`, since they are
host behaviour, not program text. -/

/-- DOM and host oracles. `qsa n s` is `n.querySelectorAll(s)` in
document order; `styleProp n pseudo name` is
`getComputedStyle(n, pseudo)[name]` with `none` for a null style;
`xpathEval n s` is the XPath snapshot for expression `s` rooted at `n`,
in document order; `regexTest re flags subject` is
`new RegExp(re, flags).test(subject)`. -/
structure Dom where
  doc : Nat
  qsa : Nat → Str → List Nat
  textContent : Nat → Str
  parent : Nat → Option Nat
  closest : Nat → Str → Option Nat
  styleProp : Nat → Option Str → Str → Option Str
  prevSiblingCount : Nat → Nat
  nodeType : Nat → Nat
  regexTest : Str → Option Str → Str → Bool
  xpathEval : Nat → Str → List Nat

mutual

/-- Tagged task vocabulary, one case per `PSelector...Task` class.
`ifT true` is `PSelectorIfTask` (used for `:has` and `:if`), `ifT false`
is `PSelectorIfNotTask` (used for `:if-not` and `:not`); `passthru` is
`PSelectorPassthru` (the `:remove` placeholder task); `watchAttr` is
`PSelectorWatchAttrs`, whose observer registration is a side effect with
no bearing on the transposed nodes; `upward` serves `:upward` and
`:nth-ancestor` with either a numeric or a selector argument. -/
inductive PTask where
  | hasText (re : Str) (flags : Option Str)
  | ifT (target : Bool) (sub : PSelector)
  | matchesCSS (pseudo : Option Str) (name : Str) (re : Str) (flags : Option Str)
  | minTextLength (n : Nat)
  | passthru
  | spath (s : Str)
  | upward (arg : Sum Nat Str)
  | watchAttr (attrs : List Str)
  | xpath (s : Str)

/-- The `PSelector` payload: CSS prefix and task chain (budget fields
live in the runtime model above). -/
inductive PSelector where
  | mk (selector : Str) (tasks : List PTask)

end

/-- CSS prefix of a `PSelector`. -/
def PSelector.selector : PSelector → Str
  | .mk s _ => s

/-- Task chain of a `PSelector`. -/
def PSelector.tasks : PSelector → List PTask
  | .mk _ ts => ts

/-- The `nth` test of `PSelectorSpathTask`'s constructor:
`/^(?:\s*[+~]|:)/.test(spath)`. -/
def spathNth (s : Str) : Bool :=
  (let t := s.dropWhile isWS; t.head? = some '+' || t.head? = some '~') ||
    s.head? = some ':'

/-- Constructor-time normalization of a `:spath` argument: when not
`nth` and starting with (whitespace then) `>`, prefix `:scope ` to the
trimmed string.  Returns the effective spath and the `nth` flag. -/
def spathNormalize (s : Str) : Str × Bool :=
  if spathNth s then (s, true)
  else if (s.dropWhile isWS).head? = some '>' then
    (strLit ":scope " ++ trimStr s, false)
  else (s, false)

/-- The ancestor walk of `PSelectorUpwardTask.transpose` for a numeric
argument `i`: step to the parent `i` times, yielding nothing when the
chain runs out.  The source's `for(;;)` with `nth -= 1; if (nth === 0)
break;` walks to the root and returns nothing when `i = 0` (the
prototype default, unreachable through the compiler). -/
def upwardNum (dom : Dom) : Nat → Nat → List Nat
  | 0, _ => []
  | 1, n =>
    match dom.parent n with
    | none => []
    | some p => [p]
  | (k+2), n =>
    match dom.parent n with
    | none => []
    | some p => upwardNum dom (k+1) p

/-- `PSelector.prime(input)`: the root is the input node or the
document; an empty CSS prefix yields the root itself, otherwise
`root.querySelectorAll(selector)`. -/
def prime (dom : Dom) (sel : PSelector) (input : Option Nat) : List Nat :=
  let root := input.getD dom.doc
  if sel.selector = [] then [root] else dom.qsa root sel.selector

mutual

/-- The `transpose(node, output)` method of each task class: the list of
nodes the task appends to `output` for input `node`. -/
def transpose (dom : Dom) : PTask → Nat → List Nat
  | .hasText re fl, n =>
    if dom.regexTest re fl (dom.textContent n) then [n] else []
  | .ifT target sub, n =>
    if test dom sub (some n) = target then [n] else []
  | .matchesCSS pseudo name re fl, n =>
    match dom.styleProp n pseudo name with
    | none => []
    | some v => if dom.regexTest re fl v then [n] else []
  | .minTextLength m, n =>
    if m ≤ (dom.textContent n).length then [n] else []
  | .passthru, n => [n]
  | .spath s, n =>
    let sp := spathNormalize s
    if sp.2 = false then dom.qsa n sp.1
    else
      match dom.parent n with
      | none => []
      | some par =>
        dom.qsa par
          (strLit ":scope > :nth-child(" ++
            natToStr (1 + dom.prevSiblingCount n) ++ [')'] ++ sp.1)
  | .upward (.inl i), n => upwardNum dom i n
  | .upward (.inr s), n =>
    if s = [] then upwardNum dom 0 n
    else
      match dom.parent n with
      | none => []
      | some par =>
        match dom.closest par s with
        | none => []
        | some m => [m]
  | .watchAttr _, n => [n]
  | .xpath s, n =>
    ((dom.xpathEval n s).reverse).filter (fun m => dom.nodeType m = 1)

/-- The task-threading loop shared by `exec` and `test`: feed the
current working set through the tasks in order, stopping as soon as the
set is empty. -/
def runTasks (dom : Dom) : List PTask → List Nat → List Nat
  | [], ns => ns
  | t :: ts, ns =>
    if ns = [] then ns
    else runTasks dom ts (ns.flatMap (transpose dom t))

/-- `PSelector.test(input)`: true iff some primed node survives the full
task chain, checked one node at a time (the early-return loop of the
source is equivalent to this `any`). -/
def test (dom : Dom) : PSelector → Option Nat → Bool
  | .mk selector tasks, input =>
    (prime dom (.mk selector tasks) input).any
      (fun n => !(runTasks dom tasks [n]).isEmpty)

end

/-- `PSelector.exec(input)`: prime, then thread the working set through
the task chain. -/
def exec (dom : Dom) (sel : PSelector) (input : Option Nat) : List Nat :=
  runTasks dom sel.tasks (prime dom sel input)

/-- Concrete document used for the C5 scenario: document `0` holds
`html` `1` → `body` `2` → `div` `3` and `span` `4` as siblings.  `div`
matches selector `"div"`, `span` matches `"span"`; the `div` contains no
`span`, but its parent (`body`) does. -/
def dmEx : Dom where
  doc := 0
  qsa := fun n s =>
    if s = strLit "div" then (if n = 0 ∨ n = 1 ∨ n = 2 then [3] else [])
    else if s = strLit "span" then (if n = 0 ∨ n = 1 ∨ n = 2 then [4] else [])
    else []
  textContent := fun _ => []
  parent := fun n =>
    if n = 3 ∨ n = 4 then some 2 else if n = 2 then some 1 else none
  closest := fun _ _ => none
  styleProp := fun _ _ _ => none
  prevSiblingCount := fun _ => 0
  nodeType := fun _ => 1
  regexTest := fun _ _ _ => false
  xpathEval := fun _ _ => []

end Pipeline


namespace StaticExt

/-! Model of the procedural cosmetic-selector compiler
(`src/unnamed/part_000`, `compileProceduralSelector`, lines 188-602).
Strings are `Str` (lists of UTF-16-ish characters); string indices and
`slice` follow the JS conventions.  The live-DOM probes
(`sheetSelectable`, the stylesheet probe inside
`compileStyleProperties`, `document.createExpression`, and the `RegExp`
constructor check of `isBadRegex`) are host behaviour and enter as the
oracle bundle `Env`.  The recursion of `compile` through
`compileConditionalSelector` is expressed with a fuel parameter; the
entry point passes `raw.length + 1`, which always suffices because each
nesting level consumes at least one `(` of the raw string. -/

/-- Host oracles of the compiler. -/
structure Env where
  sheet : Str → Bool
  styleValid : Str → Bool
  xpathValid : Str → Bool
  badRegex : Str → Bool

/-- The `regexToRawValue` map (most recent binding wins, as with
`Map.set`). -/
abbrev R2R : Type := List (Str × Str)

/-- `regexToRawValue.set`. -/
def r2rSet (m : R2R) (k v : Str) : R2R := (k, v) :: m

/-- `regexToRawValue.get`. -/
def r2rGet (m : R2R) (k : Str) : Option Str :=
  (m.find? (fun q => q.1 == k)).map (fun q => q.2)

/-- JS `String.prototype.slice(b, e)` for our index ranges. -/
def slice (l : Str) (b e : Nat) : Str := (l.take e).drop b

/-- The operator names of `reProceduralOperator`, in source order. -/
def opNames : List Str :=
  [strLit "-abp-contains", strLit "-abp-has", strLit "contains",
   strLit "has", strLit "has-text", strLit "if", strLit "if-not",
   strLit "matches-css", strLit "matches-css-after",
   strLit "matches-css-before", strLit "min-text-length", strLit "not",
   strLit "nth-ancestor", strLit "remove", strLit "style",
   strLit "upward", strLit "watch-attr", strLit "watch-attrs",
   strLit "xpath"]

/-- `reProceduralOperator.exec` on the text following a `:`: the
operator whose name followed by `(` starts the string.  At most one
alternative can match because the only prefix-related names
(`has`/`has-text`, `matches-css`/`-after`/`-before`,
`watch-attr`/`watch-attrs`) are disambiguated by the required `(`. -/
def matchOp (s : Str) : Option Str :=
  opNames.find? (fun op => (op ++ ['(']).isPrefixOf s)

/-- Body of the "advance to next operator" loop of `compile` (lines
462-468), walking the remaining characters while tracking the absolute
index. -/
def findOpAux : Str → Nat → Option (Nat × Str)
  | [], _ => none
  | c :: t, i =>
    if c = ':' then
      match matchOp t with
      | some op => some (i, op)
      | none => findOpAux t (i + 1)
    else findOpAux t (i + 1)

/-- The "advance to next operator" loop of `compile` (lines 462-468):
from index `i`, find the next `:` whose suffix matches
`reProceduralOperator`; returns the index of the `:` and the operator
name, or `none` when the scan reaches the end (`i === n`). -/
def findOp (raw : Str) (i : Nat) : Option (Nat × Str) :=
  findOpAux (raw.drop i) i

/-- The parenthesis-balance scan of `compile` (lines 477-488), starting
with `pcnt = 1` just after the operator's `(`: a `\` skips the next
character, `(` and `)` adjust the balance, and the scan stops when the
balance reaches 0 or the string ends.  Returns the index after the scan,
the final balance, and the last character read (`none` when no character
was read; the JS variable `c` then still holds the operator's `:`,
which is equally different from `)`). -/
def scanArgAux : Str → Nat → Nat → Option Char → Nat × Nat × Option Char
  | [], i, pcnt, last => (i, pcnt, last)
  | c :: t, i, pcnt, _ =>
    if c = '\\' then
      match t with
      | [] => scanArgAux [] (i + 1) pcnt (some c)
      | _ :: t2 => scanArgAux t2 (i + 2) pcnt (some c)
    else if c = '(' then scanArgAux t (i + 1) (pcnt + 1) (some c)
    else if c = ')' then
      if pcnt - 1 = 0 then (i + 1, 0, some c)
      else scanArgAux t (i + 1) (pcnt - 1) (some c)
    else scanArgAux t (i + 1) pcnt (some c)

/-- The balance scan entered at absolute index `i`. -/
def scanArg (raw : Str) (i : Nat) (pcnt : Nat) (last : Option Char) :
    Nat × Nat × Option Char :=
  scanArgAux (raw.drop i) i pcnt last

mutual

/-- Validated argument payloads of compiled tasks: plain string, bounded
integer, regex details (a bare source string, or source plus flags when
the filter used a `/.../flags` literal), a CSS declaration
(`{name, value}` with regex-detail value), an attribute-name list, or a
nested compiled descriptor. -/
inductive ArgVal where
  | str (s : Str)
  | num (n : Nat)
  | rex (re : Str) (flags : Option Str)
  | css (name : Str) (re : Str) (flags : Option Str)
  | attrs (l : List Str)
  | sel (d : Desc)

/-- A compiled selector descriptor `{selector, tasks?, action?, raw?}`.
An absent `tasks` field is the empty list (the compiler never emits a
present-but-empty task array), `action` is the bare `remove`/`style`
string, and `raw` is the canonical re-serialization attached by the
entry point. -/
inductive Desc where
  | mk (selector : Str) (tasks : List (Str × ArgVal)) (action : Option Str)
      (raw : Option Str)

end

/-- Selector field of a descriptor. -/
def Desc.selector : Desc → Str
  | .mk s _ _ _ => s

/-- Task list of a descriptor. -/
def Desc.tasks : Desc → List (Str × ArgVal)
  | .mk _ t _ _ => t

/-- Action field of a descriptor. -/
def Desc.action : Desc → Option Str
  | .mk _ _ a _ => a

/-- Canonical `raw` field of a descriptor. -/
def Desc.rawStr : Desc → Option Str
  | .mk _ _ _ r => r

/-- Attach the canonical re-serialization. -/
def Desc.withRaw : Desc → Str → Desc
  | .mk s t a _, r => .mk s t a (some r)

/-- Index of the last occurrence of a character. -/
def lastIdxOf (l : Str) (c : Char) : Option Nat :=
  match l.reverse.findIdx? (fun x => x = c) with
  | none => none
  | some j => some (l.length - 1 - j)

/-- `reParseRegexLiteral = /^\/(.+)\/([imu]+)?$/`: the greedy `(.+)`
runs to the last `/` whose suffix consists of `imu` flags only (an
earlier `/` cannot match because its suffix would contain the last `/`);
`.` does not cross line terminators; the content must be non-empty. -/
def parseRegexLiteral (s : Str) : Option (Str × Option Str) :=
  match s with
  | '/' :: rest =>
    match lastIdxOf rest '/' with
    | none => none
    | some k =>
      if k < 1 then none
      else
        let content := rest.take k
        let flags := rest.drop (k + 1)
        if flags.all (fun c => c = 'i' || c = 'm' || c = 'u') &&
            content.all (fun c => c ≠ '\n' && c ≠ '\r') then
          some (content, if flags.isEmpty then none else some flags)
        else none
  | _ => none

/-- `reEatBackslashes = /\\([()])/g` replacement with `$1`: drop a
backslash escaping a parenthesis. -/
def eatBackslashes : Str → Str
  | [] => []
  | '\\' :: '(' :: t => '(' :: eatBackslashes t
  | '\\' :: ')' :: t => ')' :: eatBackslashes t
  | c :: t => c :: eatBackslashes t

/-- The character class of `reEscapeRegex = /[.*+?^${}()|[\]\\]/g`. -/
def regexSpecials : Str :=
  ['.', '*', '+', '?', '^', '$', '\x7b', '\x7d', '(', ')', '|', '[', ']', '\\']

/-- `replace(reEscapeRegex, '\\$&')`: backslash-escape regex
metacharacters. -/
def escapeRegex (s : Str) : Str :=
  s.flatMap (fun c => if regexSpecials.contains c then ['\\', c] else [c])

/-- `compileText` (lines 227-242): either a `/.../flags` literal
(validated through the host `RegExp` constructor), or a literal string
whose escaped parentheses are eaten and whose metacharacters are
escaped, recorded in `regexToRawValue`. -/
def compileText (env : Env) (s : Str) (m : R2R) : Option ArgVal × R2R :=
  match parseRegexLiteral s with
  | some (re, fl) =>
    if env.badRegex re then (none, m) else (some (ArgVal.rex re fl), m)
  | none =>
    let re := escapeRegex (eatBackslashes s)
    (some (ArgVal.rex re none), r2rSet m re s)

/-- `compileCSSDeclaration` (lines 244-262): split at the first `:` into
trimmed name and value; the value is a regex literal or an anchored
escaped literal recorded in `regexToRawValue`. -/
def compileCSSDeclaration (env : Env) (s : Str) (m : R2R) :
    Option ArgVal × R2R :=
  match s.findIdx? (fun c => c = ':') with
  | none => (none, m)
  | some pos =>
    let name := trimStr (s.take pos)
    let value := trimStr (s.drop (pos + 1))
    match parseRegexLiteral value with
    | some (re, fl) =>
      if env.badRegex re then (none, m) else (some (ArgVal.css name re fl), m)
    | none =>
      let re := '^' :: escapeRegex value ++ ['$']
      (some (ArgVal.css name re none), r2rSet m re value)

/-- `compileInteger` (lines 273-278): digits only, value in
`[min, max)`. -/
def compileInteger (s : Str) (mn mx : Nat) : Option Nat :=
  if s.isEmpty || !s.all Char.isDigit then none
  else
    let n := s.foldl (fun a c => a * 10 + (c.toNat - 48)) 0
    if n < mn || mx ≤ n then none else some n

/-- `reNeedScope = /^\s*>/`. -/
def needScope (s : Str) : Bool := (s.dropWhile isWS).head? == some '>'

/-- `reIsDanglingSelector = /[+>~\s]\s*$/`. -/
def isDanglingSelector (p : Str) : Bool :=
  match p.getLast? with
  | none => false
  | some c => c == '+' || c == '>' || c == '~' || isWS c

/-- `reIsSiblingSelector = /^\s*[+~]/`. -/
def isSiblingSelector (p : Str) : Bool :=
  match (p.dropWhile isWS).head? with
  | some c => c == '+' || c == '~'
  | none => false

/-- `compileSpathExpression` (lines 300-304): the expression prefixed
with `*` must be sheet-selectable. -/
def compileSpathExpression (env : Env) (s : Str) : Option Str :=
  if env.sheet ('*' :: s) then some s else none

/-- Substring test (used for the forbidden-construct scans). -/
def hasSub (sub : Str) : Str → Bool
  | [] => sub.isEmpty
  | c :: t => sub.isPrefixOf (c :: t) || hasSub sub t

/-- Lower-casing for the case-insensitive forbidden-construct scan. -/
def toLowerStr (s : Str) : Str := s.map Char.toLower

/-- The `\/\s*\/` alternative of the forbidden-construct regex. -/
def hasSlashWsSlash : Str → Bool
  | [] => false
  | '/' :: t => ((t.dropWhile isWS).head? == some '/') || hasSlashWsSlash t
  | _ :: t => hasSlashWsSlash t

/-- The forbidden-construct scan of `compileStyleProperties`
(`/image-set\(|url\(|\/\s*\/|\\|\/\*/i`). -/
def hasForbiddenStyle (s : Str) : Bool :=
  hasSub (strLit "image-set(") (toLowerStr s) ||
  hasSub (strLit "url(") (toLowerStr s) ||
  hasSlashWsSlash s ||
  s.contains '\\' ||
  hasSub (strLit "/*") s

/-- `compileStyleProperties` (lines 307-331): reject forbidden
constructs, then probe the declaration block through the host
stylesheet. -/
def compileStyleProperties (env : Env) (s : Str) : Option Str :=
  if hasForbiddenStyle s then none
  else if env.styleValid s then some s else none

/-- `compileUpwardArgument` (lines 290-294): an integer in `[1, 256)` or
a sheet-selectable selector. -/
def compileUpwardArgument (env : Env) (s : Str) : Option ArgVal :=
  match compileInteger s 1 256 with
  | some i => some (ArgVal.num i)
  | none => if env.sheet s then some (ArgVal.str s) else none

/-- `compileRemoveSelector` (lines 296-298): only the empty argument. -/
def compileRemoveSelector (s : Str) : Option ArgVal :=
  if s.isEmpty then some (ArgVal.str []) else none

/-- The separator of `compileAttrList`: the source calls
`s.split('\s*,\s*')` with a *string* argument, and in a JS string
literal `'\s'` is just `'s'`, so the split is on the literal character
sequence `s*,s*`, not on a whitespace-comma pattern. -/
def watchAttrSep : Str := strLit "s*,s*"

/-- JS `String.prototype.split` on the literal separator `s*,s*`,
accumulating the current piece in reverse; the separator occurrence is
recognized leftmost-first, as `split` does. -/
def splitAttrAux : Str → Str → List Str
  | 's' :: '*' :: ',' :: 's' :: '*' :: t, acc => acc.reverse :: splitAttrAux t []
  | c :: t, acc => splitAttrAux t (c :: acc)
  | [], acc => [acc.reverse]

/-- `compileAttrList` (lines 333-342): split on the literal `s*,s*`
separator, keep the non-empty pieces; never fails. -/
def compileAttrList (s : Str) : List Str :=
  (splitAttrAux s []).filter (fun a => !a.isEmpty)

/-- `compileXpathExpression` (lines 344-351): validity via the host's
`document.createExpression`. -/
def compileXpathExpression (env : Env) (s : Str) : Option Str :=
  if env.xpathValid s then some s else none

/-- The `normalizedOperators` map (lines 354-360). -/
def normalizedOperators : List (Str × Str) :=
  [(strLit ":-abp-contains", strLit ":has-text"),
   (strLit ":-abp-has", strLit ":has"),
   (strLit ":contains", strLit ":has-text"),
   (strLit ":nth-ancestor", strLit ":upward"),
   (strLit ":watch-attrs", strLit ":watch-attr")]

/-- `normalizedOperators.get(operator) || operator`. -/
def normalizeOp (op : Str) : Str :=
  match normalizedOperators.find? (fun q => q.1 == op) with
  | some q => q.2
  | none => op

/-- The `actionOperators` set (lines 380-383). -/
def actionOperators : List Str := [strLit ":remove", strLit ":style"]

/-- The code after `compile`'s scan loop once the prefix question is
settled (lines 553-579): fix a dangling selector with `*`; a
non-selectable prefix is only tolerated in non-root context when it is a
sibling-combinator prefix compiling as an spath, in which case it is
unshifted as a leading `:spath` task. -/
def finishTail (env : Env) (root : Bool) (pfx : Str)
    (tasks : List (Str × ArgVal)) (action : Option Str) (m : R2R) :
    Option Desc × R2R :=
  if pfx.isEmpty then (some (Desc.mk pfx tasks action none), m)
  else
    let pfx1 := if isDanglingSelector pfx then pfx ++ ['*'] else pfx
    if env.sheet pfx1 then (some (Desc.mk pfx1 tasks action none), m)
    else if root || !isSiblingSelector pfx1 ||
        (compileSpathExpression env pfx1).isNone then (none, m)
    else
      (some (Desc.mk [] ((strLit ":spath", ArgVal.str pfx1) :: tasks) action none),
       m)

/-- The code after `compile`'s scan loop (lines 528-579).  With no tasks
the raw text is a plain CSS selector (directly returned when root and
selectable; the `action[0] === ':style'` comparison of the source
compares a one-character string against `':style'` and can never hold);
with tasks, trailing text after the last operator must compile as a
trailing `:spath` task (and is a failure after an action operator). -/
def compileFinish (env : Env) (raw : Str) (root : Bool) (pfx : Str)
    (tasks : List (Str × ArgVal)) (action : Option Str) (opb : Nat)
    (m : R2R) : Option Desc × R2R :=
  if tasks.isEmpty then
    let pfx1 := if action.isNone then raw else pfx
    if root && env.sheet pfx1 && action.isNone then
      (some (Desc.mk pfx1 [] none none), m)
    else if root && env.sheet pfx1 &&
        ((action.getD []).take 1 == strLit ":style") then
      (some (Desc.mk pfx1 [] action none), m)
    else finishTail env root pfx1 [] action m
  else
    if opb < raw.length then
      if action.isSome then (none, m)
      else
        match compileSpathExpression env (slice raw opb raw.length) with
        | none => (none, m)
        | some sp =>
          finishTail env root pfx (tasks ++ [(strLit ":spath", ArgVal.str sp)])
            action m
    else finishTail env root pfx tasks action m

mutual

/-- `compile(raw, root)` (lines 449-580).  The recursion of the source
(the scan loop, and the reentry through `compileConditionalSelector`)
is expressed with a single fuel parameter that every call decrements, so
that the definitions are structurally recursive and computable by the
kernel; exhausted fuel yields the failure value.  The entry point
supplies `compileFuel raw`, which strictly exceeds the number of calls
any input can cause (each loop iteration advances the scan index and
each nesting level consumes a `(` of the raw text, so the total number
of calls is quadratically bounded by the raw length). -/
def compileF : Nat → Env → Str → Bool → R2R → Option Desc × R2R
  | 0, _, _, _, m => (none, m)
  | Nat.succ f, env, raw, root, m =>
    if raw.isEmpty then (none, m)
    else compileLoop f env raw root 0 0 [] [] none m

/-- One iteration of `compile`'s scan loop (lines 459-526), carrying the
accumulator `(i, opPrefixBeg, prefix, tasks, action)`.  Mirrors the
source order: advance to the next operator (finishing the loop when none
is found); balance-scan the argument; reject an unbalanced argument
unless the last character read is `)`; skip the whole span as ordinary
CSS when it is sheet-selectable; otherwise normalize the operator,
validate the argument, record the prefix (first operator) or an
intermediate `:spath` (gap since the previous operator, a failure after
an action), reject a second operator after an action, push the task,
handle action operators (root only), and continue at the argument
end. -/
def compileLoop : Nat → Env → Str → Bool → Nat → Nat → Str →
    List (Str × ArgVal) → Option Str → R2R → Option Desc × R2R
  | 0, _, _, _, _, _, _, _, _, m => (none, m)
  | Nat.succ f, env, raw, root, i, opb, pfx, tasks, action, m =>
    match findOp raw i with
    | none => compileFinish env raw root pfx tasks action opb m
    | some (opNameBeg, op) =>
      let opNameEnd := opNameBeg + 1 + op.length
      let scan := scanArg raw (opNameEnd + 1) 1 none
      let i2 := scan.1
      let pcnt := scan.2.1
      let lastc := scan.2.2
      if pcnt != 0 && lastc != some ')' then (none, m)
      else if env.sheet (slice raw opNameBeg i2) then
        compileLoop f env raw root i2 opb pfx tasks action m
      else
        let operator := normalizeOp (':' :: op)
        match compileArgument f env operator (slice raw (opNameEnd + 1) (i2 - 1)) m with
        | (none, m1) => (none, m1)
        | (some args, m1) =>
          let pre : Option (Str × List (Str × ArgVal)) :=
            if opb = 0 then some (slice raw 0 opNameBeg, tasks)
            else if opNameBeg ≠ opb then
              if action.isSome then none
              else
                match compileSpathExpression env (slice raw opb opNameBeg) with
                | none => none
                | some sp => some (pfx, tasks ++ [(strLit ":spath", ArgVal.str sp)])
            else some (pfx, tasks)
          match pre with
          | none => (none, m1)
          | some (pfx1, tasks1) =>
            if action.isSome then (none, m1)
            else
              let tasks2 := tasks1 ++ [(operator, args)]
              if actionOperators.contains operator && root = false then (none, m1)
              else
                let action2 :=
                  if actionOperators.contains operator then
                    some (operator.drop 1)
                  else action
                if i2 = raw.length then
                  compileFinish env raw root pfx1 tasks2 action2 i2 m1
                else
                  compileLoop f env raw root i2 i2 pfx1 tasks2 action2 m1

/-- The `compileArgument` dispatch table (lines 362-378), applied to the
operator's argument span. -/
def compileArgument : Nat → Env → Str → Str → R2R → Option ArgVal × R2R
  | 0, _, _, _, m => (none, m)
  | Nat.succ f, env, operator, s, m =>
    if operator = strLit ":has" || operator = strLit ":if" ||
        operator = strLit ":if-not" then
      compileConditionalSelector f env s m
    else if operator = strLit ":has-text" then compileText env s m
    else if operator = strLit ":matches-css" ||
        operator = strLit ":matches-css-after" ||
        operator = strLit ":matches-css-before" then
      compileCSSDeclaration env s m
    else if operator = strLit ":min-text-length" then
      ((compileInteger s 0 2147483647).map ArgVal.num, m)
    else if operator = strLit ":not" then
      if env.sheet s then (none, m) else compileConditionalSelector f env s m
    else if operator = strLit ":remove" then (compileRemoveSelector s, m)
    else if operator = strLit ":spath" then
      ((compileSpathExpression env s).map ArgVal.str, m)
    else if operator = strLit ":style" then
      ((compileStyleProperties env s).map ArgVal.str, m)
    else if operator = strLit ":upward" then (compileUpwardArgument env s, m)
    else if operator = strLit ":watch-attr" then
      (some (ArgVal.attrs (compileAttrList s)), m)
    else if operator = strLit ":xpath" then
      ((compileXpathExpression env s).map ArgVal.str, m)
    else (none, m)

/-- `compileConditionalSelector` (lines 264-271): prepend `:scope ` when
the argument starts with (whitespace and) `>`, then compile as a
non-root descriptor. -/
def compileConditionalSelector : Nat → Env → Str → R2R → Option ArgVal × R2R
  | 0, _, _, m => (none, m)
  | Nat.succ f, env, s, m =>
    let s2 := if needScope s then strLit ":scope " ++ s else s
    let r := compileF f env s2 false m
    (r.1.map ArgVal.sel, r.2)

end

/-- Fuel passed by the entry point: a generous quadratic bound on the
number of compiler calls any raw string can cause. -/
def compileFuel (raw : Str) : Nat := (raw.length + 8) * (raw.length + 8) * 16

/-- JS template stringification of a task argument as used by
`decompile`'s default case: strings verbatim, numbers in decimal,
attribute lists joined with `,` (JS `Array.prototype.toString`); the
remaining shapes never reach that case. -/
def argToStr : ArgVal → Str
  | ArgVal.str s => s
  | ArgVal.num n => natToStr n
  | ArgVal.attrs l => List.intercalate [','] l
  | _ => []

mutual

/-- `decompile` (lines 392-447): the canonical re-serialization.  A
descriptor without tasks prints as its selector; otherwise the selector
is followed by each task's canonical form.  Note `:if` prints as `:has`
and `:if-not` as `:not`. -/
def decompile (m : R2R) : Desc → Str
  | Desc.mk selector tasks _ _ =>
    if tasks.isEmpty then selector
    else selector ++ decompileTasks m tasks

/-- Serialization of a task list, in order. -/
def decompileTasks (m : R2R) : List (Str × ArgVal) → Str
  | [] => []
  | t :: ts => decompileTask m t ++ decompileTasks m ts

/-- Serialization of one task, per `decompile`'s `switch`.  Regex
details print as the recorded raw value when one is in
`regexToRawValue`, else as a `/.../` literal; argument shapes that
cannot occur for the given operator print as nothing (unreachable). -/
def decompileTask (m : R2R) : Str × ArgVal → Str
  | (op, arg) =>
    if op = strLit ":has" || op = strLit ":if" then
      match arg with
      | ArgVal.sel d => (strLit ":has(" ++ decompile m d) ++ [')']
      | _ => []
    else if op = strLit ":not" || op = strLit ":if-not" then
      match arg with
      | ArgVal.sel d => (strLit ":not(" ++ decompile m d) ++ [')']
      | _ => []
    else if op = strLit ":has-text" then
      match arg with
      | ArgVal.rex re (some fl) =>
        (strLit ":has-text(" ++ ('/' :: re ++ '/' :: fl)) ++ [')']
      | ArgVal.rex re none =>
        (strLit ":has-text(" ++
          (match r2rGet m re with
           | some v => v
           | none => '/' :: re ++ ['/'])) ++ [')']
      | _ => []
    else if op = strLit ":matches-css" || op = strLit ":matches-css-after" ||
        op = strLit ":matches-css-before" then
      match arg with
      | ArgVal.css name re fl =>
        ((((op ++ ['(']) ++ name) ++ strLit ": ") ++
          (match fl with
           | some f => '/' :: re ++ '/' :: f
           | none =>
             match r2rGet m re with
             | some v => v
             | none => '/' :: re ++ ['/'])) ++ [')']
      | _ => []
    else if op = strLit ":spath" then
      match arg with
      | ArgVal.str s => s
      | _ => []
    else if op = strLit ":min-text-length" || op = strLit ":remove" ||
        op = strLit ":style" || op = strLit ":upward" ||
        op = strLit ":watch-attr" || op = strLit ":xpath" then
      ((op ++ ['(']) ++ argToStr arg) ++ [')']
    else []

end

/-- The compiler's entry point (lines 582-593) without the single-entry
memo cache, which only short-circuits recompiling the identical raw
string: compile as root, and on success attach the canonical
re-serialization as `raw`. -/
def entryPoint (env : Env) (raw : Str) (m : R2R) : Option Desc × R2R :=
  match compileF (compileFuel raw) env raw true m with
  | (none, m1) => (none, m1)
  | (some d, m1) => (some (d.withRaw (decompile m1 d)), m1)

/-- Whether an operator tag is an action operator. -/
def isActionOp (op : Str) : Bool := actionOperators.contains op

mutual

/-- An argument payload free of action operators all the way down: for a
nested descriptor this requires no `action` field and a fully
action-free task list. -/
def argActionFree : ArgVal → Bool
  | ArgVal.sel (Desc.mk _ tasks action _) => action.isNone && tasksActionFree tasks
  | _ => true

/-- A task list with no action operator anywhere, nested descriptors
included. -/
def tasksActionFree : List (Str × ArgVal) → Bool
  | [] => true
  | (op, arg) :: ts => !isActionOp op && argActionFree arg && tasksActionFree ts

/-- A task list whose nested descriptors are action-free (the top-level
operator tags themselves are unconstrained). -/
def tasksNestedFree : List (Str × ArgVal) → Bool
  | [] => true
  | (_, arg) :: ts => argActionFree arg && tasksNestedFree ts

end

/-- No action operator before the last task. -/
def actionOnlyTrailing (tasks : List (Str × ArgVal)) : Bool :=
  tasks.dropLast.all (fun t => !isActionOp t.1)

/-- The action-placement invariant of a compiled descriptor: at most one
action operator and only as the final task, no action operator inside a
nested descriptor, and — for a non-root compilation — no action operator
and no `action` field at all. -/
def descOk (root : Bool) : Desc → Bool
  | Desc.mk _ tasks action _ =>
    actionOnlyTrailing tasks && tasksNestedFree tasks &&
      (root || (action.isNone && tasks.all (fun t => !isActionOp t.1)))

/-- Invariant of the scan loop's accumulator: nested descriptors in the
collected tasks are action-free; while no action has been recorded, no
collected task is an action operator; once an action has been recorded,
the compilation is root-level and the action task is the last collected
task, with no action operator before it. -/
def loopInv (root : Bool) (tasks : List (Str × ArgVal)) (action : Option Str) : Prop :=
  tasksNestedFree tasks = true ∧
  (action = none → tasks.all (fun t => !isActionOp t.1) = true) ∧
  (∀ a, action = some a → root = true ∧
    ∃ pre lastT, tasks = pre ++ [lastT] ∧
      pre.all (fun t => !isActionOp t.1) = true)

/-- A plausible `sheetSelectable` oracle for the legacy Gecko host the
extension targets: selector strings without any `:` (plain
tag/class/id/attribute selectors, including the probed `*`-prefixed
spath fragments) are selectable; anything containing a `:` — in
particular every span of a procedural operator such as `:if(...)`,
`:has(...)`, `:has-text(...)` — is not (legacy Gecko supports neither
`:has` nor the procedural pseudo-classes). -/
def envLegacy : Env where
  sheet := fun s => !s.contains ':'
  styleValid := fun _ => true
  xpathValid := fun _ => true
  badRegex := fun _ => false

end StaticExt

-- ----------------------------------------------------------------------
-- Theorems
-- ----------------------------------------------------------------------

namespace Collapser

/-- Helper: effects appended by a fold of `processTarget` are hiding
effects on confirmed-blocked elements. -/
theorem foldl_processTarget_effects (blocked : List String) (patchDefined : Bool)
    (maxCnt : Int) (targets : List Elem) :
    ∀ st : Int × List Effect × List String,
      (∀ eff ∈ st.2.1, Effect.isHiding eff = true ∧
        confirmedBlocked blocked eff.target = true) →
      ∀ eff ∈ (targets.foldl (processTarget blocked patchDefined maxCnt) st).2.1,
        Effect.isHiding eff = true ∧ confirmedBlocked blocked eff.target = true := by
  induction targets with
  | nil => intro st hst; simpa using hst
  | cons e ts ih =>
    intro st hst
    simp only [List.foldl_cons]
    refine ih _ ?_
    intro eff heff
    unfold processTarget at heff
    dsimp only at heff
    rcases hp : pickSrc e with _ | ⟨prop, src⟩ <;> rw [hp] at heff <;>
      dsimp only at heff
    · exact hst eff heff
    · by_cases hb :
        blocked.contains (tagToType e.localName ++ " " ++ src) = false
      · rw [if_pos hb] at heff
        exact hst eff heff
      · rw [if_neg hb] at heff
        have hconf : confirmedBlocked blocked e = true := by
          unfold confirmedBlocked
          rw [hp]
          simpa using hb
        dsimp only at heff
        have hcases : eff ∈ st.2.1 ∨ eff = Effect.setStyleDisplayNoneImportant e ∨
            eff = Effect.setHiddenTrue e ∨ eff = Effect.iframeLoadEventPatch e := by
          by_cases hpd : patchDefined = true
          · rw [if_pos hpd] at heff
            simp only [List.append_assoc, List.mem_append, List.mem_cons,
              List.not_mem_nil, or_false] at heff
            tauto
          · rw [if_neg hpd] at heff
            simp only [List.mem_append, List.mem_cons,
              List.not_mem_nil, or_false] at heff
            tauto
        rcases hcases with h | h | h | h
        · exact hst eff h
        · subst h; simp [Effect.isHiding, Effect.target, hconf]
        · subst h; simp [Effect.isHiding, Effect.target, hconf]
        · subst h; simp [Effect.isHiding, Effect.target, hconf]

end Collapser

/-- C9: every host-visible operation the collapser's `onProcessed`
performs on an element is a hiding operation — setting
`display:none!important`, setting the `hidden` attribute, or invoking
the platform iframe load-event patch — applied to an element confirmed
as blocked; in particular the element is never detached from the tree
(`removeElement` is never emitted) and no other element field is
touched. -/
theorem Collapser.onProcessed_only_hides (blocked : List String)
    (patchDefined : Bool) (maxCnt cnt0 : Int) (targets : List Collapser.Elem)
    (eff : Collapser.Effect)
    (heff : eff ∈ (Collapser.onProcessed blocked patchDefined maxCnt cnt0 targets).2.1) :
    Collapser.Effect.isHiding eff = true ∧
      Collapser.confirmedBlocked blocked eff.target = true := by
  unfold Collapser.onProcessed at heff
  by_cases hb : blocked.length = 0
  · rw [if_pos hb] at heff; simp at heff
  · rw [if_neg hb] at heff
    exact Collapser.foldl_processTarget_effects blocked patchDefined maxCnt targets
      (cnt0, [], []) (by intro x hx; simp at hx) eff heff

/-- Witness for C9: a blocked image gets exactly the two hiding
mutations, and the theorem applies to the first of them. -/
theorem Collapser.onProcessed_only_hides_witness :
    Collapser.Effect.isHiding
        (Collapser.Effect.setStyleDisplayNoneImportant
          ⟨"img", [("src", "http://x/a.png")], [("src", "http://x/a.png")]⟩) = true ∧
      Collapser.confirmedBlocked ["image http://x/a.png"]
        (Collapser.Effect.target
          (Collapser.Effect.setStyleDisplayNoneImportant
            ⟨"img", [("src", "http://x/a.png")], [("src", "http://x/a.png")]⟩)) = true :=
  Collapser.onProcessed_only_hides ["image http://x/a.png"] false 10 0
    [⟨"img", [("src", "http://x/a.png")], [("src", "http://x/a.png")]⟩]
    (Collapser.Effect.setStyleDisplayNoneImportant
      ⟨"img", [("src", "http://x/a.png")], [("src", "http://x/a.png")]⟩)
    (by decide)

/-- C8: for every state of a Surveyor pending-chunk queue — whatever the
contents of its node list and overflow buffer, in particular any state
reachable through `addChunk` — a single `nextChunk` call returns at most
1000 nodes. -/
theorem Surveyor.nextChunk_le_1000 (p : Surveyor.Pending) :
    (Surveyor.nextChunk p).1.length ≤ 1000 := by
  unfold Surveyor.nextChunk
  rcases p with ⟨nodes, added⟩
  cases added with
  | nil =>
    simp only
    split
    · simp
    · split
      · simp_all; omega
      · simp [List.length_take]
  | cons e rest =>
    simp only
    split
    · cases e with
      | chunk b ns =>
        simp only
        split
        · simpa using by assumption
        · simp [List.length_take]
      | single n => simp
    · split
      · simp only [List.length_append, List.length_take]
        omega
      · simp [List.length_take]

namespace Procedural

/-- Floor division by 2000 underestimates: `2000 * ⌊x / 2000⌋ ≤ x`. -/
theorem fdiv2000_mul_le (x : Int) : 2000 * x.fdiv 2000 ≤ x := by
  rw [Int.fdiv_eq_ediv x (by norm_num)]
  have h1 := Int.ediv_add_emod x 2000
  have h2 := Int.emod_nonneg x (show (2000 : Int) ≠ 0 by norm_num)
  omega

/-- Invariant-carrying induction for the amended C2: starting from a
disabled selector whose budget sits at `-0x7FFFFFFF + 50·G` with the
granted allowance `G` accounted against the time elapsed since `L`, the
selector stays non-positive — hence is never executed — as long as every
pass happens before `L + 2000 * 42949673` milliseconds. -/
theorem runPasses_disabled_aux (parent : Nat → Bool) (L : Int) :
    ∀ (passes : List (Int × Except Unit (List Nat) × Int))
      (pb pl : Int) (pa : Option String) (ph : Bool) (G : Int),
      0 ≤ G →
      pb = -2147483647 + 50 * G →
      2000 * G ≤ pl - L →
      pl - L < 85899346000 →
      (∀ x ∈ passes, x.1 < L + 85899346000) →
      (runPasses parent ⟨pb, pl, pa, ph⟩ passes).2 = false := by
  intro passes
  induction passes with
  | nil => intro pb pl pa ph G _ _ _ _ _; rfl
  | cons x rest ih =>
    rcases x with ⟨t0, inp, cost⟩
    intro pb pl pa ph G hG hbudget hlast hlt hT
    have ht0 : t0 < L + 85899346000 := hT _ (List.mem_cons_self _ _)
    have hTrest : ∀ x ∈ rest, x.1 < L + 85899346000 :=
      fun x hx => hT x (List.mem_cons_of_mem _ hx)
    by_cases ha : 1 ≤ (t0 - pl).fdiv 2000
    · have hfd := fdiv2000_mul_le (t0 - pl)
      have hnocap : ¬ 200 < pb + (t0 - pl).fdiv 2000 * 50 := by omega
      have hrep : replenish t0 ⟨pb, pl, pa, ph⟩ =
          ⟨pb + (t0 - pl).fdiv 2000 * 50, t0, pa, ph⟩ := by
        unfold replenish
        dsimp only
        rw [if_pos ha, if_neg hnocap]
      have hskip : pb + (t0 - pl).fdiv 2000 * 50 ≤ 0 := by omega
      have hstep : selStep parent t0 [] ⟨pb, pl, pa, ph⟩ inp cost =
          ⟨t0, [], ⟨pb + (t0 - pl).fdiv 2000 * 50, t0, pa, ph⟩, false, false⟩ := by
        unfold selStep
        rw [hrep]
        dsimp only
        rw [if_pos hskip]
      simp only [runPasses, hstep, Bool.false_or]
      exact ih _ _ _ _ (G + (t0 - pl).fdiv 2000)
        (by omega) (by omega) (by omega) (by omega) hTrest
    · have hrep : replenish t0 ⟨pb, pl, pa, ph⟩ = ⟨pb, pl, pa, ph⟩ := by
        unfold replenish
        dsimp only
        rw [if_neg ha]
      have hskip : pb ≤ 0 := by omega
      have hstep : selStep parent t0 [] ⟨pb, pl, pa, ph⟩ inp cost =
          ⟨t0, [], ⟨pb, pl, pa, ph⟩, false, false⟩ := by
        unfold selStep
        rw [hrep]
        dsimp only
        rw [if_pos hskip]
      simp only [runPasses, hstep, Bool.false_or]
      exact ih _ _ _ _ G hG hbudget hlast hlt hTrest

end Procedural

/-- C2, counterexample: the re-enabling the claim denies is possible.  A
selector disabled at clock value 0 (budget set to `-0x7FFFFFFF`, i.e.
-2147483647) is executed again in a pass whose clock reads
86,000,000,000 ms (~2.7 years later): the allowance grant
`⌊86000000000/2000⌋ * 50 = 2150000000` exceeds `0x7FFFFFFF`, the budget
is capped at 200, and the selector runs — so "the time-based allowance
replenishment never makes its budget positive again" is false for
arbitrarily large elapsed time. -/
theorem Procedural.disabled_reexecuted_after_long_gap :
    (Procedural.runPasses Procedural.parentT ⟨-2147483647, 0, none, false⟩
        [(86000000000, Except.ok [], 0)]).2 = true ∧
      (Procedural.runPasses Procedural.parentT ⟨-2147483647, 0, none, false⟩
          [(86000000000, Except.ok [], 0)]).1.budget = 200 := by
  constructor <;> rfl

/-- C2, amended: once a selector's budget has been clamped to
`-0x7FFFFFFF`, it is not executed in any later pass — for every sequence
of change notifications — as long as every pass happens less than
`2000 * 42949673` ms (≈ 2.7 years) after the disable-time allowance
stamp `L`; beyond that horizon the replenishment can make the budget
positive again (see the counterexample). -/
theorem Procedural.disabled_never_executed_within_horizon
    (parent : Nat → Bool) (L : Int) (pa : Option String) (ph : Bool)
    (passes : List (Int × Except Unit (List Nat) × Int))
    (hT : ∀ x ∈ passes, x.1 < L + 85899346000) :
    (Procedural.runPasses parent ⟨-2147483647, L, pa, ph⟩ passes).2 = false :=
  Procedural.runPasses_disabled_aux parent L passes _ L pa ph 0
    (le_refl 0) (by ring) (by omega) (by omega) hT

/-- Witness for the amended C2: a disabled selector is skipped in two
ordinary passes seconds after the disable. -/
theorem Procedural.disabled_never_executed_within_horizon_witness :
    (Procedural.runPasses Procedural.parentT ⟨-2147483647, 0, none, false⟩
        [(3000, Except.ok [1, 2], 5), (9000, Except.ok [], 1)]).2 = false :=
  Procedural.disabled_never_executed_within_horizon Procedural.parentT 0 none false
    [(3000, Except.ok [1, 2], 5), (9000, Except.ok [], 1)] (by decide)

namespace Procedural

/-- Splitting the selector loop at a non-throwing prefix: the loop over
`s1 ++ s2` runs the prefix first and continues from its final clock and
hidden set. -/
theorem commitLoop_append (parent : Nat → Bool) :
    ∀ (s1 : List PSel) (i1 : List ExecInput) (t0 : Int) (h : List Nat)
      (t0' : Int) (h' : List Nat) (s1' : List PSel),
      s1.length = i1.length →
      commitLoop parent t0 h s1 i1 = ⟨t0', h', s1', false⟩ →
      ∀ (s2 : List PSel) (i2 : List ExecInput),
        commitLoop parent t0 h (s1 ++ s2) (i1 ++ i2) =
          ⟨(commitLoop parent t0' h' s2 i2).t0,
           (commitLoop parent t0' h' s2 i2).hidden,
           s1' ++ (commitLoop parent t0' h' s2 i2).sels,
           (commitLoop parent t0' h' s2 i2).threw⟩ := by
  intro s1
  induction s1 with
  | nil =>
    intro i1 t0 h t0' h' s1' hlen heq s2 i2
    have hi1 : i1 = [] := List.eq_nil_of_length_eq_zero hlen.symm
    subst hi1
    unfold commitLoop at heq
    injection heq with h1 h2 h3 h4
    subst h1; subst h2; subst h3
    simp
  | cons p ps ih =>
    intro i1 t0 h t0' h' s1' hlen heq s2 i2
    cases i1 with
    | nil => simp at hlen
    | cons i is =>
      simp only [List.length_cons, Nat.succ.injEq] at hlen
      unfold commitLoop at heq
      dsimp only at heq
      by_cases hthr : (selStep parent t0 h p i.1 i.2).threw = true
      · rw [if_pos hthr] at heq
        injection heq with h1 h2 h3 h4
        exact absurd h4 (by simp)
      · rw [if_neg hthr] at heq
        rcases hre : commitLoop parent (selStep parent t0 h p i.1 i.2).t0
            (selStep parent t0 h p i.1 i.2).hidden ps is with ⟨rt, rh, rs, rthrew⟩
        rw [hre] at heq
        dsimp only at heq
        injection heq with h1 h2 h3 h4
        subst h1; subst h2; subst h4
        have hih := ih is (selStep parent t0 h p i.1 i.2).t0
          (selStep parent t0 h p i.1 i.2).hidden rt rh rs hlen hre s2 i2
        show commitLoop parent t0 h (p :: (ps ++ s2)) (i :: (is ++ i2)) = _
        simp only [commitLoop]
        rw [if_neg hthr, hih, ← h3]
        simp

end Procedural

/-- C3, counterexample: an exception in one descriptor's pipeline does
propagate out of the re-evaluation pass, and the remaining descriptors
are not evaluated.  With two fresh selectors where the first one's
`exec` throws, `commitNow` escapes (`threw = true`), the second selector
is left untouched (its `hit` flag stays false even though its pipeline
would have matched node 7), the new hidden-node set stays empty, and the
stale node 5 is not unhidden.  In contrast, when the first selector does
not throw, the second is evaluated, node 7 is hidden and node 5 is
unhidden. -/
theorem Procedural.commitNow_throw_counterexample :
    Procedural.commitNow Procedural.parentT true 0
        [⟨200, 0, none, false⟩, ⟨200, 0, none, false⟩]
        [(Except.error (), 0), (Except.ok [7], 0)] [5] =
      ⟨[⟨200, 0, none, false⟩, ⟨200, 0, none, false⟩], [], [], true⟩ ∧
    Procedural.commitNow Procedural.parentT true 0
        [⟨200, 0, none, false⟩, ⟨200, 0, none, false⟩]
        [(Except.ok [], 0), (Except.ok [7], 0)] [5] =
      ⟨[⟨200, 0, none, false⟩, ⟨200, 0, none, true⟩], [7], [5], false⟩ := by
  constructor <;> rfl

/-- C3, amended: if a descriptor's pipeline throws during a
re-evaluation pass, the exception propagates out of `commitNow`: the
pass is aborted with the mutations made so far kept, the descriptors
after the throwing one are not evaluated in that pass, and no stale node
is unhidden in that pass (the previous hidden-node set was already
discarded). -/
theorem Procedural.commitNow_throw_aborts (parent : Nat → Bool) (t0 : Int)
    (hidden : List Nat) (s1 s2 : List Procedural.PSel) (p : Procedural.PSel)
    (i1 i2 : List Procedural.ExecInput) (c : Int)
    (t0' : Int) (h' : List Nat) (s1' : List Procedural.PSel)
    (hlen : s1.length = i1.length)
    (hpre : Procedural.commitLoop parent t0 [] s1 i1 = ⟨t0', h', s1', false⟩)
    (hbudget : 0 < (Procedural.replenish t0' p).budget) :
    Procedural.commitNow parent true t0 (s1 ++ p :: s2)
        (i1 ++ (Except.error (), c) :: i2) hidden =
      ⟨s1' ++ Procedural.replenish t0' p :: s2, h', [], true⟩ := by
  unfold Procedural.commitNow
  rw [if_neg (by simp)]
  dsimp only
  rw [Procedural.commitLoop_append parent s1 i1 t0 [] t0' h' s1' hlen hpre
    (p :: s2) ((Except.error (), c) :: i2)]
  have hsel : Procedural.selStep parent t0' h' p (Except.error ()) c =
      ⟨t0', h', Procedural.replenish t0' p, true, true⟩ := by
    unfold Procedural.selStep
    dsimp only
    rw [if_neg (by omega : ¬ (Procedural.replenish t0' p).budget ≤ 0)]
  simp only [Procedural.commitLoop, hsel]
  simp

/-- Witness for the amended C3: the first of two selectors throws at the
head of the batch; `commitNow` escapes with the second selector intact
and no unhide calls. -/
theorem Procedural.commitNow_throw_aborts_witness :
    Procedural.commitNow Procedural.parentT true 0
        [⟨100, 0, none, false⟩, ⟨150, 0, none, false⟩]
        [(Except.error (), 3), (Except.ok [7], 0)] [5] =
      ⟨[⟨100, 0, none, false⟩, ⟨150, 0, none, false⟩], [], [], true⟩ :=
  Procedural.commitNow_throw_aborts Procedural.parentT 0 [5] []
    [⟨150, 0, none, false⟩] ⟨100, 0, none, false⟩ [] [(Except.ok [7], 0)] 3
    0 [] [] rfl rfl (by decide)

/-- C4: in a completed (non-throwing) `commitNow` pass with at least one
selector and a ready DOM — the conditions under which the pass body runs
— every node of the previous hidden-node set that is not hidden again by
some executed descriptor ends up outside the new hidden-node set and
receives an `unhideNode` call.  The guard conditions are implied by the
hypotheses: if the pass body did not run, the old hidden set would
survive unchanged, contradicting `hnot`. -/
theorem Procedural.commitNow_unhides_stale (parent : Nat → Bool)
    (ready : Bool) (t0 : Int) (sels : List Procedural.PSel)
    (inps : List Procedural.ExecInput) (hidden : List Nat) (n : Nat)
    (hthrew : (Procedural.commitNow parent ready t0 sels inps hidden).threw = false)
    (hmem : n ∈ hidden)
    (hnot : (Procedural.commitNow parent ready t0 sels inps hidden).hiddenNodes.contains n
      = false) :
    n ∈ (Procedural.commitNow parent ready t0 sels inps hidden).unhideCalls ∧
      n ∉ (Procedural.commitNow parent ready t0 sels inps hidden).hiddenNodes := by
  unfold Procedural.commitNow at *
  by_cases hg : sels.length = 0 ∨ ready = false
  · rw [if_pos hg] at hnot
    dsimp only at hnot
    have hnot' : n ∉ hidden := by simpa using hnot
    exact absurd hmem hnot'
  · rw [if_neg hg] at hthrew hnot ⊢
    by_cases hthr : (Procedural.commitLoop parent t0 [] sels inps).threw = true
    · rw [if_pos hthr] at hthrew
      exact absurd hthrew (by simp)
    · rw [if_neg hthr] at hnot ⊢
      dsimp only at hnot ⊢
      have hnot' : n ∉ (Procedural.commitLoop parent t0 [] sels inps).hidden := by
        simpa using hnot
      refine ⟨List.mem_filter.2 ⟨hmem, ?_⟩, hnot'⟩
      simp [hnot']

/-- Witness for C4: a pass whose lone selector matches nothing unhides
the stale node 5. -/
theorem Procedural.commitNow_unhides_stale_witness :
    5 ∈ (Procedural.commitNow Procedural.parentT true 0 [⟨200, 0, none, false⟩]
        [(Except.ok [], 0)] [5]).unhideCalls ∧
      5 ∉ (Procedural.commitNow Procedural.parentT true 0 [⟨200, 0, none, false⟩]
        [(Except.ok [], 0)] [5]).hiddenNodes :=
  Procedural.commitNow_unhides_stale Procedural.parentT true 0
    [⟨200, 0, none, false⟩] [(Except.ok [], 0)] [5] 5
    rfl (by decide) rfl

namespace Pipeline

/-- Threading an empty working set through any task list yields the
empty set. -/
theorem runTasks_nil_input (dom : Dom) : ∀ ts : List PTask, runTasks dom ts [] = [] := by
  intro ts
  cases ts with
  | nil => rfl
  | cons t ts => simp [runTasks]

/-- The task-threading loop splits over list concatenation. -/
theorem runTasks_append (dom : Dom) :
    ∀ (l1 l2 : List PTask) (ns : List Nat),
      runTasks dom (l1 ++ l2) ns = runTasks dom l2 (runTasks dom l1 ns) := by
  intro l1
  induction l1 with
  | nil => intro l2 ns; rfl
  | cons t ts ih =>
    intro l2 ns
    by_cases hns : ns = []
    · subst hns
      rw [runTasks_nil_input dom ((t :: ts) ++ l2), runTasks_nil_input dom (t :: ts),
        runTasks_nil_input dom l2]
    · show runTasks dom (t :: (ts ++ l2)) ns = _
      simp only [runTasks, if_neg hns]
      exact ih l2 _

/-- A one-task chain on a non-empty working set is a `flatMap` of the
task's `transpose`. -/
theorem runTasks_singleton (dom : Dom) (t : PTask) (x : Nat) (xs : List Nat) :
    runTasks dom [t] (x :: xs) = (x :: xs).flatMap (transpose dom t) := by
  simp [runTasks]

end Pipeline

/-- C5, counterexample: the descriptor `div:not(span):upward(1)` — task
list `[ifT false (span), upward 1]` — run on `dmEx` returns `[2]` (the
`body`), yet the negated inner selector's `test` succeeds on node 2
(body does contain a `span`).  A task placed after the `not`/`if-not`
task can move the working set to nodes the negated descriptor matches,
so "exec never returns a node for which that task's nested descriptor's
test succeeds" fails as stated. -/
theorem Pipeline.exec_after_ifnot_can_match :
    Pipeline.exec Pipeline.dmEx
        (Pipeline.PSelector.mk (strLit "div")
          [Pipeline.PTask.ifT false (Pipeline.PSelector.mk (strLit "span") []),
           Pipeline.PTask.upward (Sum.inl 1)]) none = [2] ∧
      Pipeline.test Pipeline.dmEx (Pipeline.PSelector.mk (strLit "span") [])
        (some 2) = true := by
  constructor <;> rfl

/-- C5, amended: for every descriptor whose task list *ends* with a
`not`/`if-not` task — equivalently, at the point in the chain just after
that task — no node in `exec`'s result satisfies the nested descriptor's
`test`; a subsequent transposing task (e.g. `:upward`) can break this
for the final result, as the counterexample shows. -/
theorem Pipeline.exec_trailing_ifnot_no_match (dom : Pipeline.Dom)
    (selector : Str) (ts : List Pipeline.PTask) (sub : Pipeline.PSelector)
    (input : Option Nat) (n : Nat)
    (hn : n ∈ Pipeline.exec dom
      (Pipeline.PSelector.mk selector (ts ++ [Pipeline.PTask.ifT false sub])) input) :
    Pipeline.test dom sub (some n) = false := by
  unfold Pipeline.exec at hn
  simp only [Pipeline.PSelector.tasks] at hn
  rw [Pipeline.runTasks_append] at hn
  rcases hm : Pipeline.runTasks dom ts
      (Pipeline.prime dom
        (Pipeline.PSelector.mk selector (ts ++ [Pipeline.PTask.ifT false sub]))
        input) with _ | ⟨x, xs⟩
  · rw [hm] at hn
    rw [Pipeline.runTasks_nil_input] at hn
    simp at hn
  · rw [hm] at hn
    rw [Pipeline.runTasks_singleton] at hn
    simp only [List.mem_flatMap] at hn
    rcases hn with ⟨y, _, hy⟩
    unfold Pipeline.transpose at hy
    by_cases ht : Pipeline.test dom sub (some y) = false
    · rw [if_pos (by rw [ht])] at hy
      simp only [List.mem_singleton] at hy
      subst hy
      exact ht
    · rw [if_neg (by simpa using ht)] at hy
      simp at hy

/-- Witness for the amended C5: `div:not(span)` with the `not` task in
final position; node 3 (the `div`, which contains no `span`) is in the
`exec` result, and the nested `test` on it is false. -/
theorem Pipeline.exec_trailing_ifnot_no_match_witness :
    Pipeline.test Pipeline.dmEx (Pipeline.PSelector.mk (strLit "span") [])
      (some 3) = false :=
  Pipeline.exec_trailing_ifnot_no_match Pipeline.dmEx (strLit "div") []
    (Pipeline.PSelector.mk (strLit "span") []) none 3 (by decide)

namespace StaticExt

/-- When the literal separator never occurs, the split keeps the whole
string in one piece (prefixed by the accumulator). -/
theorem splitAttrAux_no_sep :
    ∀ (s acc : Str), hasSub watchAttrSep s = false →
      splitAttrAux s acc = [acc.reverse ++ s] := by
  intro s
  induction s with
  | nil => intro acc _; simp [splitAttrAux]
  | cons c t ih =>
    intro acc hsub
    unfold hasSub at hsub
    simp only [Bool.or_eq_false_iff] at hsub
    unfold splitAttrAux
    split
    · exfalso
      rename_i heq
      rw [show c :: t = _ from heq] at hsub
      simp [watchAttrSep, strLit, List.isPrefixOf] at hsub
    · rename_i c2 t2 heq
      injection heq with h1 h2
      subst h1; subst h2
      rw [ih _ hsub.2]
      simp
    · rename_i heq
      exact absurd heq (List.cons_ne_nil c t)

end StaticExt

/-- C10, counterexample: `compileAttrList` on the empty argument (the
rule `...:watch-attr()`) returns the empty list, not the one-element
list containing the empty argument verbatim — so "for every argument
string that does not contain the substring `s*,s*`, it returns a
one-element list containing the whole argument string" fails at the
empty string. -/
theorem StaticExt.compileAttrList_empty :
    StaticExt.compileAttrList [] = [] ∧ ([] : List Str) ≠ [([] : Str)] := by
  constructor
  · rfl
  · decide

/-- C10, amended: `compileAttrList` splits on the literal character
sequence `s*,s*` (the source passes the string `'\s*,\s*'`, whose `\s`
escapes are just `s`), so every *non-empty* argument not containing that
literal substring — e.g. the comma-separated list `a,b` — compiles to
the one-element list holding the whole argument verbatim; the empty
argument gives the empty list; and the `:watch-attr` validator always
succeeds, so its argument never causes compile failure. -/
theorem StaticExt.compileAttrList_verbatim (s : Str) :
    (s ≠ [] → StaticExt.hasSub StaticExt.watchAttrSep s = false →
      StaticExt.compileAttrList s = [s]) ∧
    (∀ (nf : Nat) (env : StaticExt.Env) (m : StaticExt.R2R),
      ((StaticExt.compileArgument (nf + 1) env (strLit ":watch-attr") s m).1).isSome
        = true) := by
  constructor
  · intro hne hsub
    unfold StaticExt.compileAttrList
    rw [StaticExt.splitAttrAux_no_sep s [] hsub]
    simp [hne]
  · intro nf env m
    rfl

/-- Witness for the amended C10: `a,b` stays one attribute name. -/
theorem StaticExt.compileAttrList_verbatim_witness :
    StaticExt.compileAttrList (strLit "a,b") = [strLit "a,b"] :=
  (StaticExt.compileAttrList_verbatim (strLit "a,b")).1 (by decide) (by decide)

/-- C6, counterexample: in `div:has-text((x)` the argument span's
parenthesis balance never returns to zero (the scan ends with `pcnt =
1`), yet `compile` accepts the rule because the last character read is a
closing parenthesis (the "unbalanced parenthesis is fine as long as the
last character is a closing parenthesis" escape hatch of the source). -/
theorem StaticExt.unbalanced_trailing_paren_accepted :
    StaticExt.scanArg (strLit "div:has-text((x)") 13 1 none = (16, 1, some ')') ∧
      ((StaticExt.entryPoint StaticExt.envLegacy
          (strLit "div:has-text((x)") []).1).isSome = true := by
  constructor <;> rfl

/-- C6, amended: when the balance scan of the *first* recognized
operator's argument ends with a non-zero counter *and* the last
character consumed is not `)`, `compile` returns `undefined` — for
every fuel, context flag and `regexToRawValue` state.  (When the final
character is `)`, the rule is not rejected for that reason; see the
counterexample.) -/
theorem StaticExt.unbalanced_rejected (nf : Nat) (env : StaticExt.Env)
    (raw : Str) (root : Bool) (m : StaticExt.R2R)
    (opNameBeg : Nat) (op : Str) (i2 pcnt : Nat) (lastc : Option Char)
    (hfind : StaticExt.findOp raw 0 = some (opNameBeg, op))
    (hscan : StaticExt.scanArg raw (opNameBeg + 1 + op.length + 1) 1 none
      = (i2, pcnt, lastc))
    (hp : pcnt ≠ 0) (hc : lastc ≠ some ')') :
    (StaticExt.compileF nf env raw root m).1 = none := by
  cases nf with
  | zero => rfl
  | succ f =>
    unfold StaticExt.compileF
    by_cases hraw : raw.isEmpty
    · rw [if_pos hraw]
    · rw [if_neg hraw]
      cases f with
      | zero => rfl
      | succ f2 =>
        show (StaticExt.compileLoop (f2 + 1) env raw root
          0 0 [] [] none m).1 = none
        simp only [StaticExt.compileLoop]
        rw [hfind]
        dsimp only
        rw [hscan]
        dsimp only
        rw [if_pos (by simp [bne_iff_ne, hp, hc])]

/-- Witness for the amended C6: `div:has-text(` (no closing parenthesis
at all) is rejected. -/
theorem StaticExt.unbalanced_rejected_witness :
    (StaticExt.compileF 14 StaticExt.envLegacy (strLit "div:has-text(")
      true []).1 = none :=
  StaticExt.unbalanced_rejected 14 StaticExt.envLegacy
    (strLit "div:has-text(") true [] 3 (strLit "has-text") 13 1 none
    (by decide) (by decide) (by decide) (by decide)

/-- C1: evaluation at the failing input `div:if(span)` (with the
legacy-host selectability oracle).  `compile` keeps the task operator
`:if`, but `decompile` canonicalizes it to `:has`, so the canonical
re-serialization is `div:has(span)`; recompiling that string yields a
descriptor whose task operator is `:has` — structurally different from
the original compiled descriptor, contradicting the guaranteed
idempotence `compile(decompile(compile(R))) = compile(R)`.  The same
asymmetry affects `:if-not` (printed as `:not`). -/
theorem StaticExt.compile_decompile_not_idempotent :
    ((StaticExt.entryPoint StaticExt.envLegacy (strLit "div:if(span)") []).1.map
        (fun d => d.tasks.map Prod.fst)) = some [strLit ":if"] ∧
    ((StaticExt.entryPoint StaticExt.envLegacy (strLit "div:if(span)") []).1.map
        (fun d => d.rawStr)) = some (some (strLit "div:has(span)")) ∧
    ((StaticExt.entryPoint StaticExt.envLegacy (strLit "div:has(span)")
        (StaticExt.entryPoint StaticExt.envLegacy (strLit "div:if(span)") []).2).1.map
        (fun d => d.tasks.map Prod.fst)) = some [strLit ":has"] := by
  refine ⟨?_, ?_, ?_⟩ <;> rfl

namespace StaticExt

/-- Nested-freedom distributes over task-list concatenation. -/
theorem tasksNestedFree_append (a b : List (Str × ArgVal)) :
    tasksNestedFree (a ++ b) = (tasksNestedFree a && tasksNestedFree b) := by
  induction a with
  | nil => simp [tasksNestedFree]
  | cons t ts ih =>
    rcases t with ⟨op, arg⟩
    simp [tasksNestedFree, ih, Bool.and_assoc]

/-- Full action-freedom of a task list is operator-freedom plus
nested-freedom. -/
theorem tasksActionFree_eq (ts : List (Str × ArgVal)) :
    tasksActionFree ts = true ↔
      (ts.all (fun t => !isActionOp t.1) = true ∧ tasksNestedFree ts = true) := by
  induction ts with
  | nil => simp [tasksActionFree, tasksNestedFree]
  | cons t ts ih =>
    rcases t with ⟨op, arg⟩
    simp only [tasksActionFree, tasksNestedFree, List.all_cons,
      Bool.and_eq_true, ih]
    tauto

/-- `all` survives `dropLast`. -/
theorem all_dropLast (p : Str × ArgVal → Bool) (l : List (Str × ArgVal))
    (h : l.all p = true) : l.dropLast.all p = true := by
  rw [List.all_eq_true] at h ⊢
  intro x hx
  exact h x ((List.dropLast_sublist l).subset hx)

/-- A descriptor assembled from a loop state satisfying the invariant
satisfies the action-placement invariant. -/
theorem descOk_of_inv (root : Bool) (pfx : Str) (tasks : List (Str × ArgVal))
    (action : Option Str) (r : Option Str) (h : loopInv root tasks action) :
    descOk root (Desc.mk pfx tasks action r) = true := by
  obtain ⟨hn, ha, hb⟩ := h
  cases action with
  | none =>
    have hall := ha rfl
    unfold descOk actionOnlyTrailing
    simp [hn, all_dropLast _ _ hall, hall]
  | some a =>
    obtain ⟨hroot, pre, lastT, htasks, hpre⟩ := hb a rfl
    subst hroot
    subst htasks
    unfold descOk actionOnlyTrailing
    simp [hn, List.dropLast_concat, hpre]

/-- The `:spath` tag is not an action operator. -/
theorem spath_not_action : isActionOp (strLit ":spath") = false := by decide

/-- Core of `finishTail` after the prefix has been fixed up. -/
theorem finishTail_core (env : Env) (root : Bool) (pfx1 : Str)
    (tasks : List (Str × ArgVal)) (action : Option Str) (m : R2R)
    (d : Desc) (m' : R2R) (hinv : loopInv root tasks action)
    (h : (if env.sheet pfx1 = true then (some (Desc.mk pfx1 tasks action none), m)
          else if (root || !isSiblingSelector pfx1 ||
              (compileSpathExpression env pfx1).isNone) = true then
            ((none : Option Desc), m)
          else
            (some (Desc.mk [] ((strLit ":spath", ArgVal.str pfx1) :: tasks) action none),
             m)) = (some d, m')) :
    descOk root d = true := by
  split at h
  · rw [Prod.mk.injEq] at h
    obtain ⟨h1, _⟩ := h
    injection h1 with h1
    subst h1
    exact descOk_of_inv root pfx1 tasks action none hinv
  · split at h
    · simp at h
    · rename_i hguard
      rw [Prod.mk.injEq] at h
      obtain ⟨h1, _⟩ := h
      injection h1 with h1
      subst h1
      obtain ⟨hn, ha, hb⟩ := hinv
      have hroot : root = false := by
        rcases root with _ | _
        · rfl
        · exfalso; exact hguard (by simp)
      subst hroot
      have hact : action = none := by
        cases action with
        | none => rfl
        | some a => exact absurd (hb a rfl).1 (by simp)
      subst hact
      have hall := ha rfl
      apply descOk_of_inv
      refine ⟨?_, ?_, ?_⟩
      · simp [tasksNestedFree, hn, argActionFree]
      · intro _
        simp [List.all_cons, hall, spath_not_action]
      · intro a hcon
        cases hcon

/-- `finishTail` preserves the invariant into the descriptor it
returns. -/
theorem finishTail_ok (env : Env) (root : Bool) (pfx : Str)
    (tasks : List (Str × ArgVal)) (action : Option Str) (m : R2R)
    (d : Desc) (m' : R2R) (hinv : loopInv root tasks action)
    (h : finishTail env root pfx tasks action m = (some d, m')) :
    descOk root d = true := by
  unfold finishTail at h
  split at h
  · rw [Prod.mk.injEq] at h
    obtain ⟨h1, _⟩ := h
    injection h1 with h1
    subst h1
    exact descOk_of_inv root pfx tasks action none hinv
  · dsimp only at h
    split at h
    · exact finishTail_core env root _ tasks action m d m' hinv h
    · exact finishTail_core env root _ tasks action m d m' hinv h

/-- `compileFinish` preserves the invariant into the descriptor it
returns. -/
theorem compileFinish_ok (env : Env) (raw : Str) (root : Bool) (pfx : Str)
    (tasks : List (Str × ArgVal)) (action : Option Str) (opb : Nat)
    (m : R2R) (d : Desc) (m' : R2R) (hinv : loopInv root tasks action)
    (h : compileFinish env raw root pfx tasks action opb m = (some d, m')) :
    descOk root d = true := by
  obtain ⟨hn, ha, hb⟩ := hinv
  unfold compileFinish at h
  split at h
  · -- tasks is empty
    rename_i hte
    have htasks : tasks = [] := by
      cases tasks with
      | nil => rfl
      | cons t ts => simp at hte
    subst htasks
    have hact : action = none := by
      cases action with
      | none => rfl
      | some a =>
        obtain ⟨_, pre, lastT, habs, _⟩ := hb a rfl
        cases pre <;> simp at habs
    subst hact
    dsimp only at h
    rw [show (if (none : Option Str).isNone = true then raw else pfx) = raw
      from rfl] at h
    simp only [Option.isNone_none, Option.getD_none, Bool.and_true,
      List.take_nil] at h
    rw [show (([] : Str) == strLit ":style") = false from by decide] at h
    simp only [Bool.and_false, Bool.false_eq_true, if_false] at h
    split at h
    · rw [Prod.mk.injEq] at h
      obtain ⟨h1, _⟩ := h
      injection h1 with h1
      subst h1
      apply descOk_of_inv
      exact ⟨rfl, fun _ => rfl, fun a hcon => by cases hcon⟩
    · exact finishTail_ok env root raw [] none m d m'
        ⟨rfl, fun _ => rfl, fun a hcon => by cases hcon⟩ h
  · -- tasks nonempty
    split at h
    · split at h
      · simp at h
      · -- action is none here
        rename_i hnact
        have hact : action = none := by
          cases action with
          | none => rfl
          | some a => simp at hnact
        subst hact
        split at h
        · simp at h
        · rename_i sp hsp
          refine finishTail_ok env root pfx _ none m d m' ⟨?_, ?_, ?_⟩ h
          · rw [tasksNestedFree_append]
            simp [hn, tasksNestedFree, argActionFree]
          · intro _
            rw [List.all_append]
            simp [ha rfl, List.all_cons, spath_not_action]
          · intro a hcon
            cases hcon
    · exact finishTail_ok env root pfx tasks action m d m' ⟨hn, ha, hb⟩ h

theorem argActionFree_of_descOk_false (d : Desc) (h : descOk false d = true) :
    argActionFree (ArgVal.sel d) = true := by
  rcases d with ⟨s, tasks, action, r⟩
  unfold descOk at h
  simp only [Bool.false_or, Bool.and_eq_true] at h
  obtain ⟨⟨htrail, hnested⟩, hnone, hall⟩ := h
  show (action.isNone && tasksActionFree tasks) = true
  rw [hnone, (tasksActionFree_eq tasks).2 ⟨hall, hnested⟩]
  rfl

set_option maxHeartbeats 1600000 in
theorem compile_all (f : Nat) :
    (∀ env raw root m d m', compileF f env raw root m = (some d, m') →
      descOk root d = true) ∧
    (∀ env raw root i opb pfx tasks action m d m', loopInv root tasks action →
      compileLoop f env raw root i opb pfx tasks action m = (some d, m') →
      descOk root d = true) ∧
    (∀ env operator s m a m', compileArgument f env operator s m = (some a, m') →
      argActionFree a = true) ∧
    (∀ env s m a m', compileConditionalSelector f env s m = (some a, m') →
      argActionFree a = true) := by
  induction f with
  | zero =>
    refine ⟨?_, ?_, ?_, ?_⟩ <;> intro _ _ _ _ _ _ <;> intros <;> simp_all [compileF, compileLoop, compileArgument, compileConditionalSelector]
  | succ f ih =>
    obtain ⟨ihF, ihL, ihA, ihC⟩ := ih
    refine ⟨?_, ?_, ?_, ?_⟩
    · -- compileF
      intro env raw root m d m' h
      unfold compileF at h
      split at h
      · simp at h
      · exact ihL env raw root 0 0 [] [] none m d m'
          ⟨rfl, fun _ => rfl, fun a hcon => by cases hcon⟩ h
    · -- compileLoop
      intro env raw root i opb pfx tasks action m d m' hinv h
      obtain ⟨hn, ha, hb⟩ := hinv
      unfold compileLoop at h
      rcases hf : findOp raw i with _ | ⟨b, op⟩ <;> rw [hf] at h
      · exact compileFinish_ok env raw root pfx tasks action opb m d m'
          ⟨hn, ha, hb⟩ h
      · dsimp only at h
        split at h
        · simp at h
        · split at h
          · exact ihL env raw root _ opb pfx tasks action m d m'
              ⟨hn, ha, hb⟩ h
          · split at h
            · simp at h
            · rename_i args m1 heq
              have hfree := ihA env _ _ m args m1 heq
              split at h
              · simp at h
              · rename_i pfx1 tasks1 hpre
                split at h
                · simp at h
                · rename_i hnact
                  have hact : action = none := by
                    cases action with
                    | none => rfl
                    | some a => simp at hnact
                  subst hact
                  have h1inv : tasksNestedFree tasks1 = true ∧
                      tasks1.all (fun t => !isActionOp t.1) = true := by
                    split at hpre
                    · rw [Option.some.injEq, Prod.mk.injEq] at hpre
                      obtain ⟨_, h2⟩ := hpre
                      subst h2
                      exact ⟨hn, ha rfl⟩
                    · split at hpre
                      · split at hpre
                        · exact absurd hpre (by simp)
                        · rw [Option.some.injEq, Prod.mk.injEq] at hpre
                          obtain ⟨_, h2⟩ := hpre
                          subst h2
                          refine ⟨?_, ?_⟩
                          · rw [tasksNestedFree_append]
                            simp [hn, tasksNestedFree, argActionFree]
                          · rw [List.all_append]
                            simp [ha rfl, spath_not_action]
                      · rw [Option.some.injEq, Prod.mk.injEq] at hpre
                        obtain ⟨_, h2⟩ := hpre
                        subst h2
                        exact ⟨hn, ha rfl⟩
                  split at h
                  · simp at h
                  · rename_i hguard
                    have hinv2 : loopInv root (tasks1 ++ [(normalizeOp (':' :: op), args)])
                        (if actionOperators.contains (normalizeOp (':' :: op)) then
                          some ((normalizeOp (':' :: op)).drop 1) else none) := by
                      refine ⟨?_, ?_, ?_⟩
                      · rw [tasksNestedFree_append]
                        simp [h1inv.1, tasksNestedFree, hfree]
                      · intro hno
                        have hcf : actionOperators.contains (normalizeOp (':' :: op)) = false := by
                          by_contra hcc
                          rw [Bool.not_eq_false] at hcc
                          rw [if_pos hcc] at hno
                          cases hno
                        rw [List.all_append, h1inv.2]
                        simp only [Bool.true_and, List.all_cons, List.all_nil, Bool.and_true]
                        rw [isActionOp, hcf]
                        rfl
                      · intro a hsome
                        have hct : actionOperators.contains (normalizeOp (':' :: op)) = true := by
                          by_contra hcc
                          rw [Bool.not_eq_true] at hcc
                          rw [if_neg (by rw [hcc]; exact Bool.false_ne_true)] at hsome
                          cases hsome
                        have hroot : root = true := by
                          by_contra hrr
                          rw [Bool.not_eq_true] at hrr
                          exact hguard (by rw [hct, hrr]; decide)
                        exact ⟨hroot, tasks1, (normalizeOp (':' :: op), args), rfl, h1inv.2⟩
                    split at h
                    · exact compileFinish_ok env raw root pfx1 _ _ _ m1 d m' hinv2 h
                    · exact ihL env raw root _ _ pfx1 _ _ m1 d m' hinv2 h
    · -- compileArgument
      intro env operator s m a m' h
      unfold compileArgument at h
      split_ifs at h
      · exact ihC env s m a m' h
      · unfold compileText at h
        split at h
        · split at h
          · simp at h
          · rw [Prod.mk.injEq] at h
            obtain ⟨h1, _⟩ := h
            injection h1 with h1
            subst h1
            rfl
        · dsimp only at h
          rw [Prod.mk.injEq] at h
          obtain ⟨h1, _⟩ := h
          injection h1 with h1
          subst h1
          rfl
      · unfold compileCSSDeclaration at h
        split at h
        · simp at h
        · dsimp only at h
          split at h
          · split at h
            · simp at h
            · rw [Prod.mk.injEq] at h
              obtain ⟨h1, _⟩ := h
              injection h1 with h1
              subst h1
              rfl
          · rw [Prod.mk.injEq] at h
            obtain ⟨h1, _⟩ := h
            injection h1 with h1
            subst h1
            rfl
      · rw [Prod.mk.injEq] at h
        obtain ⟨h1, _⟩ := h
        rw [Option.map_eq_some'] at h1
        obtain ⟨n, _, ha2⟩ := h1
        subst ha2
        rfl
      · simp at h
      · exact ihC env s m a m' h
      · unfold compileRemoveSelector at h
        split at h
        · rw [Prod.mk.injEq] at h
          obtain ⟨h1, _⟩ := h
          injection h1 with h1
          subst h1
          rfl
        · simp at h
      · rw [Prod.mk.injEq] at h
        obtain ⟨h1, _⟩ := h
        rw [Option.map_eq_some'] at h1
        obtain ⟨x, _, ha2⟩ := h1
        subst ha2
        rfl
      · rw [Prod.mk.injEq] at h
        obtain ⟨h1, _⟩ := h
        rw [Option.map_eq_some'] at h1
        obtain ⟨x, _, ha2⟩ := h1
        subst ha2
        rfl
      · unfold compileUpwardArgument at h
        split at h
        · rw [Prod.mk.injEq] at h
          obtain ⟨h1, _⟩ := h
          injection h1 with h1
          subst h1
          rfl
        · split at h
          · rw [Prod.mk.injEq] at h
            obtain ⟨h1, _⟩ := h
            injection h1 with h1
            subst h1
            rfl
          · simp at h
      · rw [Prod.mk.injEq] at h
        obtain ⟨h1, _⟩ := h
        injection h1 with h1
        subst h1
        rfl
      · rw [Prod.mk.injEq] at h
        obtain ⟨h1, _⟩ := h
        rw [Option.map_eq_some'] at h1
        obtain ⟨x, _, ha2⟩ := h1
        subst ha2
        rfl
      · simp at h
    · -- compileConditionalSelector
      intro env s m a m' h
      unfold compileConditionalSelector at h
      dsimp only at h
      rw [Prod.mk.injEq] at h
      obtain ⟨h1, _⟩ := h
      rw [Option.map_eq_some'] at h1
      obtain ⟨d, hd, ha2⟩ := h1
      subst ha2
      refine argActionFree_of_descOk_false d
        (ihF env (if needScope s = true then strLit ":scope " ++ s else s) false m d
          (compileF f env (if needScope s = true then strLit ":scope " ++ s else s) false m).2 ?_)
      rw [Prod.ext_iff]
      exact ⟨hd, rfl⟩


/-- C7: for every raw string the compiler accepts, the compiled
descriptor satisfies the action-placement invariant: no action operator
(`:remove`/`:style`) occurs before the last task, so a descriptor holds
at most one action operator and only in trailing root position, and no
nested (non-root) descriptor carries an action operator anywhere in its
tasks. -/
theorem compile_action_invariant (env : Env) (raw : Str) (m m' : R2R) (d : Desc)
    (h : entryPoint env raw m = (some d, m')) :
    actionOnlyTrailing d.tasks = true ∧ tasksNestedFree d.tasks = true := by
  unfold entryPoint at h
  split at h
  · simp at h
  · rename_i d0 m1 heq
    rw [Prod.mk.injEq] at h
    obtain ⟨h1, _⟩ := h
    injection h1 with h1
    subst h1
    have hok := (compile_all (compileFuel raw)).1 env raw true m d0 m1 heq
    rcases d0 with ⟨s0, t0, a0, r0⟩
    unfold descOk at hok
    simp only [Bool.and_eq_true] at hok
    exact ⟨hok.1.1, hok.1.2⟩

/-- Witness for C7 at the concrete rule `div:style(color:red)` under the
legacy-host sheet oracle. -/
theorem compile_action_invariant_witness :
    actionOnlyTrailing (Desc.mk (strLit "div")
        [(strLit ":style", ArgVal.str (strLit "color:red"))]
        (some (strLit "style")) (some (strLit "div:style(color:red)"))).tasks = true ∧
      tasksNestedFree (Desc.mk (strLit "div")
        [(strLit ":style", ArgVal.str (strLit "color:red"))]
        (some (strLit "style")) (some (strLit "div:style(color:red)"))).tasks = true :=
  compile_action_invariant envLegacy (strLit "div:style(color:red)") [] []
    (Desc.mk (strLit "div") [(strLit ":style", ArgVal.str (strLit "color:red"))]
      (some (strLit "style")) (some (strLit "div:style(color:red)"))) (by rfl)

end StaticExt
